import Mathlib

/-! # Collect rule of the prober manager

A shallow embedding of `src/modules/prober/manager/collectrule.go`: the
`collectRule` state, `reset`, `Metrics`, `prepareMetrics` and `update`,
followed by theorems about them.

Conventions of the embedding.

* A Go `error` result is an `Option Err` (`none` is `nil`); an interface value
  is an `Option` of its dynamic value (`none` is the `nil` interface).
* A Go map is an association list with distinct keys; the order in which a
  `range` loop visits a map is left open and enters as a `RangeOrder`.
* A Go slice is a length together with the backing array it points into, so
  that writes made through one slice header are seen through every other
  header on the same array.
* `float64` payloads are only copied by this file, never computed on; they
  are kept as an arbitrary type `V`.
* Logger calls and the lock operations have no effect on the values computed
  and are left out.
-/

set_option autoImplicit false

namespace Prober

/-- Go `error` values. -/
abbrev Err := String

/-! ## Go maps -/

/-- A Go `map[string]β`: association list, keys distinct. -/
abbrev GoMap (β : Type) := List (String × β)

/-- The two-result index expression `v, ok := m[k]`. -/
def mapGet {β : Type} (m : GoMap β) (k : String) : Option β :=
  match m with
  | [] => none
  | (k1, v) :: rest => if k1 = k then some v else mapGet rest k

/-- The assignment `m[k] = v`. -/
def mapSet {β : Type} (m : GoMap β) (k : String) (v : β) : GoMap β :=
  match m with
  | [] => [(k, v)]
  | (k1, v1) :: rest => if k1 = k then (k, v) :: rest else (k1, v1) :: mapSet rest k v

/-- The order in which one `for k, v := range m` visits the entries of a map:
some rearrangement of the entries, not fixed by the language. -/
structure RangeOrder (β : Type) where
  visit : GoMap β → GoMap β
  perm : ∀ m, List.Perm (visit m) m

/-- The range order that visits the entries in insertion order. -/
def RangeOrder.insertion (β : Type) : RangeOrder β :=
  ⟨fun m => m, fun m => List.Perm.refl m⟩

/-! ## Go slices -/

/-- A slice header with the backing array it points into: `arr` is the array
from the slice's first element up to its capacity, `len` the slice length. -/
structure Slice (α : Type) where
  arr : List α
  len : Nat
deriving DecidableEq, Repr

/-- The elements a slice shows. -/
def Slice.toList {α : Type} (s : Slice α) : List α :=
  s.arr.take s.len

/-- Where a local slice that started as `s[:0]` of a shared array lives now:
still in the shared array with `len` elements, or, once an `append` found no
capacity left, in an array of its own. -/
inductive LocalSlice (α : Type) where
  | inShared (len : Nat)
  | moved (elems : List α)
deriving DecidableEq, Repr

/-- The shared backing array together with the local slice being appended to. -/
structure Writer (α : Type) where
  shared : List α
  loc : LocalSlice α
deriving DecidableEq, Repr

/-- The elements of the local slice. -/
def Writer.out {α : Type} (w : Writer α) : List α :=
  match w.loc with
  | .inShared n => w.shared.take n
  | .moved es => es

/-- The statement `s = append(s, x)` on the local slice: with capacity left the
element is stored in place in the shared array, otherwise the elements move to
a new array and the shared one is left alone from then on. -/
def goAppend {α : Type} (w : Writer α) (x : α) : Writer α :=
  match w.loc with
  | .inShared n =>
    if n < w.shared.length then ⟨w.shared.set n x, .inShared (n + 1)⟩
    else ⟨w.shared, .moved (w.shared.take n ++ [x])⟩
  | .moved es => ⟨w.shared, .moved (es ++ [x])⟩

/-! ## Data model -/

/-- Go `interface{}` values as far as this file meets them: `nil`, a boxed
`float64`, or some other boxed value kept as an uninterpreted code. -/
inductive Iface (V : Type) where
  | nil
  | float64 (f : V)
  | other (code : Nat)
deriving DecidableEq, Repr

/-- Modelled from the spec: the declaration of `dataobj.MetricValue` is not
part of the source file; the fields are those of the spec's Metric Point,
which are the fields `prepareMetrics` reads and writes. -/
structure dataobj.MetricValue (V : Type) where
  Nid : String
  Metric : String
  Timestamp : Int
  Step : Int
  CounterType : String
  TagsMap : GoMap String
  Value : V
  ValueUntyped : Iface V
deriving DecidableEq, Repr

/-- Modelled from the spec: the declaration of `models.CollectRule` is not part
of the source file; the fields are the identity and configuration of the
spec's Collect Rule. `PluginName` stands for the result of the method
`PluginName()`. -/
structure models.CollectRule where
  Id : Int
  Nid : Int
  Step : Int
  CollectType : String
  PluginName : String
  Tags : String
  UpdatedAt : Int
deriving DecidableEq, Repr

/-- Modelled from the spec: the mode of a plugin policy, whitelist or
blacklist; `config.PluginModeWhitelist` is the first. -/
inductive config.PluginMode where
  | whitelist
  | blacklist
deriving DecidableEq, Repr

/-- Modelled from the spec: a metric declaration of a plugin policy, with its
name, its counter type and, for an expression metric, the evaluation `Calc`
over the points grouped by name. -/
structure config.Metric (V : Type) where
  Name : String
  Type_ : String
  Calc : GoMap (List (dataobj.MetricValue V)) → Except Err V

/-- Modelled from the spec: a plugin policy, with its mode, the declared
metrics by name and the ordered expression metrics. -/
structure config.PluginConfig (V : Type) where
  Mode : config.PluginMode
  Metrics : GoMap (config.Metric V)
  ExprMetrics : List (config.Metric V)

/-- The buffer `metrics *[]*dataobj.MetricValue` of a rule: the slice variable
the pointer refers to, identified by `addr`, and the slice it holds now. -/
structure Buffer (V : Type) where
  addr : Nat
  slice : Slice (dataobj.MetricValue V)
deriving DecidableEq, Repr

/-- The struct `collectRule` (the lock apart): the held definition, the sampler
`input`, the accumulator `acc`, the buffer, the parsed tags and the two
stamps. `S` and `A` are the dynamic values of `telegraf.Input` and
`telegraf.Accumulator`. -/
structure collectRule (V S A : Type) where
  CollectRule : models.CollectRule
  input : Option S
  acc : Option A
  metrics : Buffer V
  tags : GoMap String
  lastAt : Int
  updatedAt : Int
deriving DecidableEq, Repr

/-- The argument of `NewAccumulator`; `Metrics` is the pointer to the buffer. -/
structure AccumulatorOptions where
  Name : String
  Tags : GoMap String
  Metrics : Nat
deriving DecidableEq, Repr

/-- The collaborators the source file calls and does not define:
`config.GetPluginConfig` (the policy and the flag `ok`), `telegrafInput`
(both results, the sampler and the error), `dataobj.SplitTagsString` and
`NewAccumulator`. -/
structure Env (V S A : Type) where
  GetPluginConfig : String → Option (config.PluginConfig V)
  telegrafInput : models.CollectRule → Option S × Option Err
  SplitTagsString : String → Except Err (GoMap String)
  NewAccumulator : AccumulatorOptions → Except Err A

/-! ## reset and Metrics -/

/-- The method `reset`: the buffer is resliced to length zero on its array. -/
def reset {V S A : Type} (p : collectRule V S A) : collectRule V S A :=
  { p with metrics := { p.metrics with slice := { p.metrics.slice with len := 0 } } }

/-- The method `Metrics`: the elements the buffer shows. -/
def Metrics {V S A : Type} (p : collectRule V S A) : List (dataobj.MetricValue V) :=
  p.metrics.slice.toList

/-! ## prepareMetrics -/

/-- The index expression `vars[k]`, the nil slice for a missing key. -/
def mapIndex {β : Type} (m : GoMap (List β)) (k : String) : List β :=
  match mapGet m k with
  | some l => l
  | none => []

/-- One round of the grouping loop: a name seen before has its group replaced
by the point alone, a new name has the point appended to its (nil) group. -/
def groupStep {V : Type} (vars : GoMap (List (dataobj.MetricValue V)))
    (v : dataobj.MetricValue V) : GoMap (List (dataobj.MetricValue V)) :=
  match mapGet vars v.Metric with
  | some _ => mapSet vars v.Metric [v]
  | none => mapSet vars v.Metric (mapIndex vars v.Metric ++ [v])

/-- The grouping loop `for _, v := range metrics` from the empty map. -/
def groupByName {V : Type} (metrics : List (dataobj.MetricValue V)) :
    GoMap (List (dataobj.MetricValue V)) :=
  metrics.foldl groupStep []

/-- One round of the loop over `pluginConfig.ExprMetrics`. -/
def exprStep {V S A : Type} (p : collectRule V S A) (nid : String) (ts : Int)
    (vars : GoMap (List (dataobj.MetricValue V)))
    (w : Writer (dataobj.MetricValue V)) (metric : config.Metric V) :
    Writer (dataobj.MetricValue V) :=
  match metric.Calc vars with
  | .error _ => w
  | .ok f =>
    goAppend w
      { Nid := nid, Metric := metric.Name, Timestamp := ts, Step := p.CollectRule.Step,
        CounterType := metric.Type_, TagsMap := p.tags, Value := f,
        ValueUntyped := Iface.float64 f }

/-- The body of the inner loop `for _, v2 := range v` for the entry `k`. -/
def passStep {V S A : Type} (p : collectRule V S A) (nid : String) (ts : Int)
    (pluginConfig : config.PluginConfig V) (k : String)
    (w : Writer (dataobj.MetricValue V)) (v2 : dataobj.MetricValue V) :
    Writer (dataobj.MetricValue V) :=
  match mapGet pluginConfig.Metrics k with
  | some metric =>
    goAppend w
      { Nid := nid, Metric := k, Timestamp := ts, Step := p.CollectRule.Step,
        CounterType := metric.Type_, TagsMap := v2.TagsMap, Value := v2.Value,
        ValueUntyped := v2.ValueUntyped }
  | none =>
    if pluginConfig.Mode = config.PluginMode.whitelist then w
    else
      goAppend w
        { Nid := nid, Metric := k, Timestamp := ts, Step := p.CollectRule.Step,
          CounterType := "GAUGE", TagsMap := v2.TagsMap, Value := v2.Value,
          ValueUntyped := v2.ValueUntyped }

/-- The loop over the expression metrics. -/
def exprLoop {V S A : Type} (p : collectRule V S A) (nid : String) (ts : Int)
    (pluginConfig : config.PluginConfig V) (vars : GoMap (List (dataobj.MetricValue V)))
    (w : Writer (dataobj.MetricValue V)) : Writer (dataobj.MetricValue V) :=
  pluginConfig.ExprMetrics.foldl (exprStep p nid ts vars) w

/-- The loop `for k, v := range vars` with its inner loop, the entries taken in
the order given. -/
def passLoop {V S A : Type} (p : collectRule V S A) (nid : String) (ts : Int)
    (pluginConfig : config.PluginConfig V)
    (entries : GoMap (List (dataobj.MetricValue V)))
    (w : Writer (dataobj.MetricValue V)) : Writer (dataobj.MetricValue V) :=
  entries.foldl (fun w1 kv => kv.2.foldl (passStep p nid ts pluginConfig kv.1) w1) w

/-- What a call of `prepareMetrics` leaves: the two results and the rule,
whose buffer array the call may have written to. -/
structure PrepareResult (V S A : Type) where
  metrics : List (dataobj.MetricValue V)
  err : Option Err
  rule : collectRule V S A

/-- The method `prepareMetrics`. The named result `metrics` is nil at the first
return and holds the buffer's slice at the two returns that follow the
policy lookup; after them it is resliced to length zero on the buffer's array
and appended to. -/
def prepareMetrics {V S A : Type} (env : Env V S A)
    (order : RangeOrder (List (dataobj.MetricValue V))) (p : collectRule V S A) :
    PrepareResult V S A :=
  match p.metrics.slice.toList with
  | [] => ⟨[], none, p⟩
  | first :: rest =>
    let metrics := first :: rest
    let ts := first.Timestamp
    let nid := toString p.CollectRule.Nid
    match env.GetPluginConfig p.CollectRule.PluginName with
    | none => ⟨metrics, none, p⟩
    | some pluginConfig =>
      if pluginConfig.Mode = config.PluginMode.whitelist ∧ pluginConfig.Metrics.length = 0 then
        ⟨metrics, none, p⟩
      else
        let vars := groupByName metrics
        let w0 : Writer (dataobj.MetricValue V) := ⟨p.metrics.slice.arr, .inShared 0⟩
        let w1 := exprLoop p nid ts pluginConfig vars w0
        let w2 := passLoop p nid ts pluginConfig (order.visit vars) w1
        ⟨w2.out, none,
          { p with metrics := { p.metrics with slice := { p.metrics.slice with arr := w2.shared } } }⟩

/-! ## update -/

/-- The collaborator calls of `update`, for the record of which were made. -/
inductive ExtCall where
  | telegrafInput
  | SplitTagsString
  | NewAccumulator
deriving DecidableEq, Repr

/-- What a call of `update` leaves: the rule, the error returned and the
collaborator calls made, in order. -/
structure UpdateResult (V S A : Type) where
  rule : collectRule V S A
  err : Option Err
  calls : List ExtCall

/-- The name `fmt.Sprintf("%s-%d", rule.CollectType, rule.Id)`. -/
def accumulatorName (rule : models.CollectRule) : String :=
  rule.CollectType ++ "-" ++ toString rule.Id

/-- The method `update`. The guard compares the field `updatedAt`; the result
`input` of `telegrafInput` is kept whatever its error; the four assignments
at the end are to `input`, to the held definition, to `acc` and to the field
`UpdatedAt` of the held definition. -/
def update {V S A : Type} (env : Env V S A) (p : collectRule V S A)
    (rule : models.CollectRule) : UpdateResult V S A :=
  if p.updatedAt = rule.UpdatedAt then ⟨p, none, []⟩
  else
    let input := (env.telegrafInput rule).1
    match env.SplitTagsString rule.Tags with
    | .error err => ⟨p, some err, [.telegrafInput, .SplitTagsString]⟩
    | .ok tags =>
      match env.NewAccumulator
          { Name := accumulatorName rule, Tags := tags, Metrics := p.metrics.addr } with
      | .error err => ⟨p, some err, [.telegrafInput, .SplitTagsString, .NewAccumulator]⟩
      | .ok acc =>
        let p1 := { p with input := input }
        let p2 := { p1 with CollectRule := rule }
        let p3 := { p2 with acc := some acc }
        let p4 := { p3 with CollectRule := { p3.CollectRule with UpdatedAt := rule.UpdatedAt } }
        ⟨p4, none, [.telegrafInput, .SplitTagsString, .NewAccumulator]⟩


/-! ## newCollectRule -/

/-- The collaborators of `newCollectRule` besides those of `Env`:
`collector.GetCollector` and the method `TelegrafInput` of the collector it
returns. `C` is the type of collectors; the value either returns beside an
error is not used by the caller. -/
structure Collectors (C S : Type) where
  GetCollector : String → Except Err C
  TelegrafInput : C → models.CollectRule → Except Err (Option S)

/-- The function `newCollectRule`, with both results: the rule pointer (`none`
is nil) and the error. `addr` identifies the new slice variable `metrics`,
which starts as the empty slice; `lastAt` is left at its zero value. -/
def newCollectRule {V C S A : Type} (reg : Collectors C S) (env : Env V S A) (addr : Nat)
    (rule : models.CollectRule) : Option (collectRule V S A) × Option Err :=
  match reg.GetCollector rule.CollectType with
  | .error err => (none, some err)
  | .ok c =>
    match reg.TelegrafInput c rule with
    | .error err => (none, some err)
    | .ok input =>
      match env.SplitTagsString rule.Tags with
      | .error err => (none, some err)
      | .ok tags =>
        let metrics : Buffer V := ⟨addr, ⟨[], 0⟩⟩
        match env.NewAccumulator
            { Name := accumulatorName rule, Tags := tags, Metrics := metrics.addr } with
        | .error err => (none, some err)
        | .ok acc =>
          (some { CollectRule := rule, input := input, acc := some acc, metrics := metrics,
                  tags := tags, lastAt := 0, updatedAt := rule.UpdatedAt }, none)

/-! ## Auxiliary definitions for the proofs -/

/-- A local slice still in the shared array is no longer than the array. -/
def Writer.wf {α : Type} (w : Writer α) : Prop :=
  match w.loc with
  | .inShared n => n ≤ w.shared.length
  | .moved _ => True

/-- Appending the point a loop round produces, when it produces one. -/
def appendOpt {α : Type} (w : Writer α) (o : Option α) : Writer α :=
  match o with
  | some y => goAppend w y
  | none => w

/-- The point a round of the expression loop appends, if any. -/
def exprPoint {V S A : Type} (p : collectRule V S A) (nid : String) (ts : Int)
    (vars : GoMap (List (dataobj.MetricValue V))) (metric : config.Metric V) :
    Option (dataobj.MetricValue V) :=
  match metric.Calc vars with
  | .error _ => none
  | .ok f =>
    some { Nid := nid, Metric := metric.Name, Timestamp := ts, Step := p.CollectRule.Step,
           CounterType := metric.Type_, TagsMap := p.tags, Value := f,
           ValueUntyped := Iface.float64 f }

/-- The point a round of the inner pass-through loop appends, if any. -/
def passPoint {V S A : Type} (p : collectRule V S A) (nid : String) (ts : Int)
    (pluginConfig : config.PluginConfig V) (k : String) (v2 : dataobj.MetricValue V) :
    Option (dataobj.MetricValue V) :=
  match mapGet pluginConfig.Metrics k with
  | some metric =>
    some { Nid := nid, Metric := k, Timestamp := ts, Step := p.CollectRule.Step,
           CounterType := metric.Type_, TagsMap := v2.TagsMap, Value := v2.Value,
           ValueUntyped := v2.ValueUntyped }
  | none =>
    if pluginConfig.Mode = config.PluginMode.whitelist then none
    else
      some { Nid := nid, Metric := k, Timestamp := ts, Step := p.CollectRule.Step,
             CounterType := "GAUGE", TagsMap := v2.TagsMap, Value := v2.Value,
             ValueUntyped := v2.ValueUntyped }

/-- The last point of a batch, in batch order, that has the name `n`. -/
def lastNamed {V : Type} (raw : List (dataobj.MetricValue V)) (n : String) :
    Option (dataobj.MetricValue V) :=
  (raw.filter (fun v => decide (v.Metric = n))).getLast?

/-- The names under which a map holds entries, in the order of the entries. -/
def mapKeys {β : Type} (m : GoMap β) : List String :=
  m.map Prod.fst

/-- The counter type a pass-through point of the name `k` gets when the mode
is not whitelist: the declared one, or GAUGE. -/
def passType {V : Type} (pluginConfig : config.PluginConfig V) (k : String) : String :=
  match mapGet pluginConfig.Metrics k with
  | some metric => metric.Type_
  | none => "GAUGE"

/-- The pass-through point built from the raw point `v` with the counter
type `t`. -/
def passOut {V S A : Type} (p : collectRule V S A) (nid : String) (ts : Int) (t : String)
    (v : dataobj.MetricValue V) : dataobj.MetricValue V :=
  { Nid := nid, Metric := v.Metric, Timestamp := ts, Step := p.CollectRule.Step,
    CounterType := t, TagsMap := v.TagsMap, Value := v.Value, ValueUntyped := v.ValueUntyped }

/-! ## Concrete inputs -/

/-- A raw point as a sampler leaves it in the buffer. -/
def rawPoint (name : String) (counterType : String) (tags : GoMap String) (value : Int) :
    dataobj.MetricValue Int :=
  { Nid := "", Metric := name, Timestamp := 1000, Step := 0, CounterType := counterType,
    TagsMap := tags, Value := value, ValueUntyped := Iface.float64 value }

/-- The definition a rule was built from: stamp 5, tags `region=bj`. -/
def defOld : models.CollectRule :=
  { Id := 1, Nid := 7, Step := 60, CollectType := "port", PluginName := "port",
    Tags := "region=bj", UpdatedAt := 5 }

/-- A later definition of the same rule with new tags. -/
def defNew : models.CollectRule :=
  { defOld with Tags := "idc=hz", UpdatedAt := 6 }

/-- A later definition whose collect type has no sampler. -/
def defNoSampler : models.CollectRule :=
  { defOld with CollectType := "nosuch", Tags := "idc=hz", UpdatedAt := 6 }

/-- A later definition whose tag string does not parse. -/
def defBadTags : models.CollectRule :=
  { defOld with Tags := "region", UpdatedAt := 6 }

/-- A rule as `newCollectRule` builds it from `defOld`, with the given points in
a buffer of exactly that capacity. -/
def ruleWith (buf : List (dataobj.MetricValue Int)) :
    collectRule Int String AccumulatorOptions :=
  { CollectRule := defOld, input := some "port#5",
    acc := some { Name := "port-1", Tags := [("region", "bj")], Metrics := 0 },
    metrics := ⟨0, ⟨buf, buf.length⟩⟩, tags := [("region", "bj")], lastAt := 0,
    updatedAt := 5 }

/-- A tag parser on the strings the examples use. -/
def exSplitTags (s : String) : Except Err (GoMap String) :=
  if s = "" then .ok []
  else if s = "region=bj" then .ok [("region", "bj")]
  else if s = "idc=hz" then .ok [("idc", "hz")]
  else .error "bad tag"

/-- A sampler constructor that knows the collect type `port` only and returns
the nil sampler with its error otherwise. -/
def exTelegrafInput (rule : models.CollectRule) : Option String × Option Err :=
  if rule.CollectType = "port" then (some ("port#" ++ toString rule.UpdatedAt), none)
  else (none, some "collector not found")

/-- Collaborators with the given policy registry. -/
def envWith (registry : String → Option (config.PluginConfig Int)) :
    Env Int String AccumulatorOptions :=
  { GetPluginConfig := registry, telegrafInput := exTelegrafInput,
    SplitTagsString := exSplitTags, NewAccumulator := fun o => .ok o }

/-- No policy registered. -/
def envUnregistered : Env Int String AccumulatorOptions :=
  envWith (fun _ => none)

/-- A whitelist policy that declares nothing. -/
def envEmptyWhitelist : Env Int String AccumulatorOptions :=
  envWith (fun _ => some ⟨config.PluginMode.whitelist, [], []⟩)

/-- A blacklist policy that declares nothing. -/
def envBlacklist : Env Int String AccumulatorOptions :=
  envWith (fun _ => some ⟨config.PluginMode.blacklist, [], []⟩)

/-- The whitelist policy `cpu.busy: GAUGE` without expressions. -/
def cfgCpuWhitelist : config.PluginConfig Int :=
  ⟨config.PluginMode.whitelist,
    [("cpu.busy", ⟨"cpu.busy", "GAUGE", fun _ => .error "no expression"⟩)], []⟩

/-- The registry holding `cfgCpuWhitelist`. -/
def envCpuWhitelist : Env Int String AccumulatorOptions :=
  envWith (fun _ => some cfgCpuWhitelist)

/-- A blacklist policy with the one expression metric `probe.count`. -/
def envWithExpr : Env Int String AccumulatorOptions :=
  envWith (fun _ => some ⟨config.PluginMode.blacklist, [],
    [⟨"probe.count", "GAUGE", fun vars => .ok (Int.ofNat vars.length)⟩]⟩)

/-- The raw point of the end-to-end example. -/
def cpuBusy : dataobj.MetricValue Int :=
  rawPoint "cpu.busy" "COUNTER" [] 10

/-- Two points of one pass with the same name and different tags. -/
def diskRoot : dataobj.MetricValue Int :=
  rawPoint "disk.used" "GAUGE" [("mount", "/")] 40

/-- The second of them. -/
def diskData : dataobj.MetricValue Int :=
  rawPoint "disk.used" "GAUGE" [("mount", "/data")] 90

/-- A raw point whose name `cfgCpuWhitelist` does not declare. -/
def memUsed : dataobj.MetricValue Int :=
  rawPoint "mem.used" "GAUGE" [] 55

/-- The blacklist policy that declares `cpu.busy` as COUNTER, with the
expression metrics `probe.bad`, whose evaluation fails, and `probe.count`. -/
def cfgCpuBlacklist : config.PluginConfig Int :=
  ⟨config.PluginMode.blacklist,
    [("cpu.busy", ⟨"cpu.busy", "COUNTER", fun _ => .error "no expression"⟩)],
    [⟨"probe.bad", "GAUGE", fun _ => .error "division by zero"⟩,
     ⟨"probe.count", "GAUGE", fun vars => .ok (Int.ofNat vars.length)⟩]⟩

/-- The registry holding `cfgCpuBlacklist`. -/
def envCpuBlacklist : Env Int String AccumulatorOptions :=
  envWith (fun _ => some cfgCpuBlacklist)

/-- A collector registry that knows the collect type `port` only; its collector
builds the sampler named after the definition's stamp. -/
def exCollectors : Collectors String String :=
  { GetCollector := fun t => if t = "port" then .ok "port" else .error "collector not found",
    TelegrafInput := fun c rule => .ok (some (c ++ "#" ++ toString rule.UpdatedAt)) }

/-! ## Lemmas on slices -/

theorem take_succ_set {α : Type} (l : List α) (n : Nat) (x : α) (h : n < l.length) :
    (l.set n x).take (n + 1) = l.take n ++ [x] := by
  induction l generalizing n with
  | nil => simp at h
  | cons a l ih =>
    cases n with
    | zero => simp
    | succ n =>
      simp only [List.length_cons, Nat.add_lt_add_iff_right] at h
      simp [List.set, ih n h]

theorem goAppend_wf {α : Type} (w : Writer α) (x : α) (h : w.wf) : (goAppend w x).wf := by
  obtain ⟨shared, loc⟩ := w
  cases loc with
  | inShared n =>
    by_cases hn : n < shared.length
    · simp only [goAppend, hn, if_true, Writer.wf, List.length_set]
      omega
    · simp [goAppend, hn, Writer.wf]
  | moved es => simp [goAppend, Writer.wf]

theorem goAppend_out {α : Type} (w : Writer α) (x : α) (h : w.wf) :
    (goAppend w x).out = w.out ++ [x] := by
  obtain ⟨shared, loc⟩ := w
  cases loc with
  | inShared n =>
    by_cases hn : n < shared.length
    · simp only [goAppend, hn, if_true, Writer.out]
      exact take_succ_set shared n x hn
    · simp [goAppend, hn, Writer.out]
  | moved es => simp [goAppend, Writer.out]

theorem appendOpt_wf {α : Type} (w : Writer α) (o : Option α) (h : w.wf) :
    (appendOpt w o).wf := by
  cases o with
  | none => exact h
  | some y => exact goAppend_wf w y h

theorem appendOpt_out {α : Type} (w : Writer α) (o : Option α) (h : w.wf) :
    (appendOpt w o).out = w.out ++ o.toList := by
  cases o with
  | none => simp [appendOpt]
  | some y => simpa [appendOpt] using goAppend_out w y h

theorem foldl_appendOpt {α β : Type} (f : β → Option α) (xs : List β) (w : Writer α)
    (h : w.wf) :
    (xs.foldl (fun w1 x => appendOpt w1 (f x)) w).wf ∧
      (xs.foldl (fun w1 x => appendOpt w1 (f x)) w).out = w.out ++ xs.filterMap f := by
  induction xs generalizing w with
  | nil => simp [h]
  | cons x xs ih =>
    have h1 := appendOpt_wf w (f x) h
    have h2 := appendOpt_out w (f x) h
    obtain ⟨ha, hb⟩ := ih (appendOpt w (f x)) h1
    refine ⟨by simpa using ha, ?_⟩
    simp only [List.foldl_cons, hb, h2, List.filterMap_cons]
    cases f x <;> simp

/-! ## Lemmas on the loops of prepareMetrics -/

theorem exprStep_eq {V S A : Type} (p : collectRule V S A) (nid : String) (ts : Int)
    (vars : GoMap (List (dataobj.MetricValue V))) (w : Writer (dataobj.MetricValue V))
    (metric : config.Metric V) :
    exprStep p nid ts vars w metric = appendOpt w (exprPoint p nid ts vars metric) := by
  unfold exprStep exprPoint
  cases metric.Calc vars <;> rfl

theorem passStep_eq {V S A : Type} (p : collectRule V S A) (nid : String) (ts : Int)
    (pluginConfig : config.PluginConfig V) (k : String)
    (w : Writer (dataobj.MetricValue V)) (v2 : dataobj.MetricValue V) :
    passStep p nid ts pluginConfig k w v2 =
      appendOpt w (passPoint p nid ts pluginConfig k v2) := by
  unfold passStep passPoint
  cases mapGet pluginConfig.Metrics k with
  | some metric => rfl
  | none =>
    by_cases hm : pluginConfig.Mode = config.PluginMode.whitelist <;> simp [hm, appendOpt]

theorem exprLoop_out {V S A : Type} (p : collectRule V S A) (nid : String) (ts : Int)
    (pluginConfig : config.PluginConfig V) (vars : GoMap (List (dataobj.MetricValue V)))
    (w : Writer (dataobj.MetricValue V)) (h : w.wf) :
    (exprLoop p nid ts pluginConfig vars w).wf ∧
      (exprLoop p nid ts pluginConfig vars w).out =
        w.out ++ pluginConfig.ExprMetrics.filterMap (exprPoint p nid ts vars) := by
  have hstep : exprStep p nid ts vars =
      fun w1 x => appendOpt w1 (exprPoint p nid ts vars x) := by
    funext w1 x
    exact exprStep_eq p nid ts vars w1 x
  unfold exprLoop
  rw [hstep]
  exact foldl_appendOpt (exprPoint p nid ts vars) pluginConfig.ExprMetrics w h

theorem passLoop_out {V S A : Type} (p : collectRule V S A) (nid : String) (ts : Int)
    (pluginConfig : config.PluginConfig V)
    (entries : GoMap (List (dataobj.MetricValue V)))
    (w : Writer (dataobj.MetricValue V)) (h : w.wf) :
    (passLoop p nid ts pluginConfig entries w).wf ∧
      (passLoop p nid ts pluginConfig entries w).out =
        w.out ++ entries.flatMap
          (fun kv => kv.2.filterMap (passPoint p nid ts pluginConfig kv.1)) := by
  unfold passLoop
  induction entries generalizing w with
  | nil => simp [h]
  | cons kv entries ih =>
    have hstep : passStep p nid ts pluginConfig kv.1 =
        fun w1 x => appendOpt w1 (passPoint p nid ts pluginConfig kv.1 x) := by
      funext w1 x
      exact passStep_eq p nid ts pluginConfig kv.1 w1 x
    obtain ⟨ha, hb⟩ := foldl_appendOpt (passPoint p nid ts pluginConfig kv.1) kv.2 w h
    rw [← hstep] at ha hb
    obtain ⟨hc, hd⟩ := ih (kv.2.foldl (passStep p nid ts pluginConfig kv.1) w) ha
    refine ⟨by simpa using hc, ?_⟩
    simp only [List.foldl_cons, hd, hb, List.flatMap_cons, List.append_assoc]

/-! ## Lemmas on grouping -/

theorem mem_mapSet {β : Type} (m : GoMap β) (k : String) (v : β) (e : String × β)
    (h : e ∈ mapSet m k v) : e = (k, v) ∨ e ∈ m := by
  induction m with
  | nil => simpa [mapSet] using h
  | cons kv rest ih =>
    obtain ⟨k1, v1⟩ := kv
    by_cases hk : k1 = k
    · simp only [mapSet, hk, if_true, List.mem_cons] at h
      rcases h with h | h
      · exact Or.inl h
      · exact Or.inr (List.mem_cons_of_mem _ h)
    · simp only [mapSet, hk, if_false, List.mem_cons] at h
      rcases h with h | h
      · exact Or.inr (by simp [h])
      · rcases ih h with h1 | h1
        · exact Or.inl h1
        · exact Or.inr (List.mem_cons_of_mem _ h1)

theorem groupStep_mem {V : Type} (vars : GoMap (List (dataobj.MetricValue V)))
    (v : dataobj.MetricValue V) (e : String × List (dataobj.MetricValue V))
    (h : e ∈ groupStep vars v) : e = (v.Metric, [v]) ∨ e ∈ vars := by
  unfold groupStep at h
  cases hg : mapGet vars v.Metric with
  | some g =>
    simp only [hg] at h
    exact mem_mapSet vars v.Metric [v] e h
  | none =>
    simp only [hg, mapIndex, List.nil_append] at h
    exact mem_mapSet vars v.Metric [v] e h

theorem foldl_groupStep_sound {V : Type} (raw : List (dataobj.MetricValue V))
    (l : List (dataobj.MetricValue V)) (vars : GoMap (List (dataobj.MetricValue V)))
    (hl : ∀ x ∈ l, x ∈ raw)
    (hv : ∀ e ∈ vars, ∀ v ∈ e.2, v ∈ raw ∧ v.Metric = e.1) :
    ∀ e ∈ l.foldl groupStep vars, ∀ v ∈ e.2, v ∈ raw ∧ v.Metric = e.1 := by
  induction l generalizing vars with
  | nil => simpa using hv
  | cons x l ih =>
    simp only [List.foldl_cons]
    apply ih
    · intro y hy
      exact hl y (List.mem_cons_of_mem _ hy)
    · intro e he v hvin
      rcases groupStep_mem vars x e he with h1 | h1
      · subst h1
        simp only [List.mem_singleton] at hvin
        subst hvin
        exact ⟨hl v (List.mem_cons_self _ _), rfl⟩
      · exact hv e h1 v hvin

theorem groupByName_sound {V : Type} (raw : List (dataobj.MetricValue V)) :
    ∀ e ∈ groupByName raw, ∀ v ∈ e.2, v ∈ raw ∧ v.Metric = e.1 := by
  unfold groupByName
  apply foldl_groupStep_sound raw raw []
  · intro x hx
    exact hx
  · intro e he
    simp at he

/-! ## The results of prepareMetrics past the policy gate -/

theorem prepareMetrics_metrics_eq {V S A : Type} (env : Env V S A)
    (order : RangeOrder (List (dataobj.MetricValue V))) (p : collectRule V S A)
    (pluginConfig : config.PluginConfig V) (first : dataobj.MetricValue V)
    (rest : List (dataobj.MetricValue V))
    (hbuf : Metrics p = first :: rest)
    (hcfg : env.GetPluginConfig p.CollectRule.PluginName = some pluginConfig)
    (hgate : ¬ (pluginConfig.Mode = config.PluginMode.whitelist ∧
      pluginConfig.Metrics.length = 0)) :
    (prepareMetrics env order p).metrics =
      (exprLoop p (toString p.CollectRule.Nid) first.Timestamp pluginConfig
          (groupByName (first :: rest)) ⟨p.metrics.slice.arr, .inShared 0⟩).out ++
        (order.visit (groupByName (first :: rest))).flatMap
          (fun kv => kv.2.filterMap
            (passPoint p (toString p.CollectRule.Nid) first.Timestamp pluginConfig kv.1)) := by
  have hw0 : (⟨p.metrics.slice.arr, .inShared 0⟩ : Writer (dataobj.MetricValue V)).wf := by
    simp [Writer.wf]
  obtain ⟨h1, _⟩ := exprLoop_out p (toString p.CollectRule.Nid) first.Timestamp pluginConfig
    (groupByName (first :: rest)) ⟨p.metrics.slice.arr, .inShared 0⟩ hw0
  obtain ⟨_, h4⟩ := passLoop_out p (toString p.CollectRule.Nid) first.Timestamp pluginConfig
    (order.visit (groupByName (first :: rest))) _ h1
  unfold Metrics at hbuf
  simp only [prepareMetrics, hbuf, hcfg, hgate, if_false]
  exact h4

/-! ## The commit of update -/

theorem update_commit {V S A : Type} (env : Env V S A) (p : collectRule V S A)
    (rule : models.CollectRule) (tags : GoMap String) (acc : A)
    (hstamp : p.updatedAt ≠ rule.UpdatedAt)
    (htags : env.SplitTagsString rule.Tags = .ok tags)
    (hacc : env.NewAccumulator
      { Name := accumulatorName rule, Tags := tags, Metrics := p.metrics.addr } = .ok acc) :
    (update env p rule).err = none ∧
      (update env p rule).rule =
        { CollectRule := rule, input := (env.telegrafInput rule).1, acc := some acc,
          metrics := p.metrics, tags := p.tags, lastAt := p.lastAt,
          updatedAt := p.updatedAt } := by
  simp [update, hstamp, htags, hacc]

/-! ## Policy lookup -/

/-- C1, counterexample: the rule holds the one raw point `cpuBusy`, no policy
is registered for its plugin name, and prepareMetrics returns that point
instead of the empty sequence. -/
theorem prepareMetrics_unregistered_publishes :
    Metrics (ruleWith [cpuBusy]) = [cpuBusy] ∧
      envUnregistered.GetPluginConfig (ruleWith [cpuBusy]).CollectRule.PluginName = none ∧
      (prepareMetrics envUnregistered (RangeOrder.insertion _) (ruleWith [cpuBusy])).metrics =
        [cpuBusy] ∧
      [cpuBusy] ≠ ([] : List (dataobj.MetricValue Int)) := by
  refine ⟨rfl, rfl, rfl, by decide⟩

/-- C1, as the code has it: for every rule whose raw buffer is non-empty, if no
plugin policy is registered for the rule's plugin name, prepareMetrics returns
the raw batch as it stands, with no error, and leaves the rule as it was. -/
theorem prepareMetrics_unregistered_returns_raw {V S A : Type} (env : Env V S A)
    (order : RangeOrder (List (dataobj.MetricValue V))) (p : collectRule V S A)
    (hne : Metrics p ≠ [])
    (hcfg : env.GetPluginConfig p.CollectRule.PluginName = none) :
    (prepareMetrics env order p).metrics = Metrics p ∧
      (prepareMetrics env order p).err = none ∧
      (prepareMetrics env order p).rule = p := by
  unfold Metrics at hne ⊢
  cases hbuf : p.metrics.slice.toList with
  | nil => exact absurd hbuf hne
  | cons first rest =>
    simp only [prepareMetrics, hbuf, hcfg]
    exact ⟨trivial, trivial, trivial⟩

/-- C1, the amended claim at the rule holding `cpuBusy` with no policy
registered. -/
theorem prepareMetrics_unregistered_returns_raw_witness :
    Metrics (ruleWith [cpuBusy]) ≠ [] ∧
      envUnregistered.GetPluginConfig (ruleWith [cpuBusy]).CollectRule.PluginName = none ∧
      ((prepareMetrics envUnregistered (RangeOrder.insertion _) (ruleWith [cpuBusy])).metrics =
          Metrics (ruleWith [cpuBusy]) ∧
        (prepareMetrics envUnregistered (RangeOrder.insertion _) (ruleWith [cpuBusy])).err =
          none ∧
        (prepareMetrics envUnregistered (RangeOrder.insertion _) (ruleWith [cpuBusy])).rule =
          ruleWith [cpuBusy]) :=
  ⟨by decide, rfl,
    prepareMetrics_unregistered_returns_raw envUnregistered (RangeOrder.insertion _)
      (ruleWith [cpuBusy]) (by decide) rfl⟩

/-! ## Grouping -/

/-- C2, the code at the failing input: the batch holds two points named
`disk.used`; the points of that name are both of them, the group built for
the name holds the second alone, and under a registered blacklist policy one
pass-through point comes out for the two raw points, carrying the tags of the
second. -/
theorem groupByName_keeps_last_of_duplicates :
    [diskRoot, diskData].filter (fun v => v.Metric = "disk.used") = [diskRoot, diskData] ∧
      mapIndex (groupByName [diskRoot, diskData]) "disk.used" = [diskData] ∧
      (prepareMetrics envBlacklist (RangeOrder.insertion _)
        (ruleWith [diskRoot, diskData])).metrics =
        [{ Nid := "7", Metric := "disk.used", Timestamp := 1000, Step := 60,
           CounterType := "GAUGE", TagsMap := [("mount", "/data")], Value := 90,
           ValueUntyped := Iface.float64 90 }] ∧
      (Metrics (ruleWith [diskRoot, diskData])).length = 2 := by
  refine ⟨by decide, by decide, by decide, by decide⟩

/-! ## update -/

/-- C3, the code at the failing input: the rule holds the sampler `port#5`, the
new definition has another stamp and tags that parse, constructing its
sampler fails with the nil sampler; update returns success and the rule's
sampler afterwards is nil, not `port#5`. -/
theorem update_sampler_failure_drops_sampler :
    (ruleWith []).updatedAt = 5 ∧ defNoSampler.UpdatedAt = 6 ∧
      envUnregistered.SplitTagsString defNoSampler.Tags = .ok [("idc", "hz")] ∧
      envUnregistered.telegrafInput defNoSampler = (none, some "collector not found") ∧
      (ruleWith []).input = some "port#5" ∧
      (update envUnregistered (ruleWith []) defNoSampler).err = none ∧
      (update envUnregistered (ruleWith []) defNoSampler).rule.input = none := by
  refine ⟨rfl, rfl, rfl, by decide, rfl, by decide, by decide⟩

/-- C4, the code at the failing input: the rule was built with the tags
`region=bj`, the new definition has another stamp and the tags `idc=hz`, which
parse; update returns success, the rule's parsed tags afterwards are still
those of `region=bj`, and the derived point prepareMetrics then emits carries
them. -/
theorem update_commit_keeps_old_tags :
    envWithExpr.SplitTagsString defNew.Tags = .ok [("idc", "hz")] ∧
      (update envWithExpr (ruleWith [cpuBusy]) defNew).err = none ∧
      (update envWithExpr (ruleWith [cpuBusy]) defNew).rule.CollectRule = defNew ∧
      (update envWithExpr (ruleWith [cpuBusy]) defNew).rule.tags = [("region", "bj")] ∧
      ((prepareMetrics envWithExpr (RangeOrder.insertion _)
          (update envWithExpr (ruleWith [cpuBusy]) defNew).rule).metrics.map
        (fun q => (q.Metric, q.TagsMap))) =
        [("probe.count", [("region", "bj")]), ("cpu.busy", [])] := by
  refine ⟨rfl, by decide, by decide, by decide, by decide⟩

/-- C5, the code at the failing input: the rule has the stamp 5 and the new
definition the stamp 6; update commits and returns success, the stamp the
guard compares is still 5 afterwards, and the same update repeated at once is
not skipped: it calls the three collaborators again. -/
theorem update_commit_keeps_old_stamp :
    (ruleWith []).updatedAt = 5 ∧ defNew.UpdatedAt = 6 ∧
      (update envUnregistered (ruleWith []) defNew).err = none ∧
      (update envUnregistered (ruleWith []) defNew).rule.CollectRule = defNew ∧
      (update envUnregistered (ruleWith []) defNew).rule.updatedAt = 5 ∧
      (update envUnregistered (update envUnregistered (ruleWith []) defNew).rule defNew).calls =
        [ExtCall.telegrafInput, ExtCall.SplitTagsString, ExtCall.NewAccumulator] := by
  refine ⟨rfl, rfl, by decide, by decide, by decide, by decide⟩

/-! ## The buffer under prepareMetrics -/

/-- C6, the code at the failing input: the buffer holds the raw point
`cpuBusy` and the whitelist policy declares `cpu.busy` as GAUGE; Metrics
returns the raw point before the call of prepareMetrics and the published
point after it. -/
theorem prepareMetrics_overwrites_buffer :
    Metrics (ruleWith [cpuBusy]) =
        [{ Nid := "", Metric := "cpu.busy", Timestamp := 1000, Step := 0,
           CounterType := "COUNTER", TagsMap := [], Value := 10,
           ValueUntyped := Iface.float64 10 }] ∧
      Metrics (prepareMetrics envCpuWhitelist (RangeOrder.insertion _)
          (ruleWith [cpuBusy])).rule =
        [{ Nid := "7", Metric := "cpu.busy", Timestamp := 1000, Step := 60,
           CounterType := "GAUGE", TagsMap := [], Value := 10,
           ValueUntyped := Iface.float64 10 }] := by
  refine ⟨by decide, by decide⟩

/-! ## The aborting and the skipped update -/

/-- C7: for every rule and every definition whose stamp differs from the
rule's, if the definition's tag string fails to parse then update returns
that error and the rule afterwards is the rule before the call in every
field (sampler, held definition, accumulator, parsed tags, stamps, buffer),
whatever constructing the sampler gave; the accumulator is not built. -/
theorem update_tag_failure_aborts {V S A : Type} (env : Env V S A) (p : collectRule V S A)
    (rule : models.CollectRule) (e : Err)
    (hstamp : p.updatedAt ≠ rule.UpdatedAt)
    (htags : env.SplitTagsString rule.Tags = .error e) :
    (update env p rule).err = some e ∧ (update env p rule).rule = p ∧
      (update env p rule).calls = [ExtCall.telegrafInput, ExtCall.SplitTagsString] := by
  simp [update, hstamp, htags]

/-- C7 at a definition whose sampler is constructed and whose tags do not
parse. -/
theorem update_tag_failure_aborts_witness :
    (ruleWith [cpuBusy]).updatedAt ≠ defBadTags.UpdatedAt ∧
      envUnregistered.SplitTagsString defBadTags.Tags = .error "bad tag" ∧
      envUnregistered.telegrafInput defBadTags = (some "port#6", none) ∧
      ((update envUnregistered (ruleWith [cpuBusy]) defBadTags).err = some "bad tag" ∧
        (update envUnregistered (ruleWith [cpuBusy]) defBadTags).rule = ruleWith [cpuBusy] ∧
        (update envUnregistered (ruleWith [cpuBusy]) defBadTags).calls =
          [ExtCall.telegrafInput, ExtCall.SplitTagsString]) :=
  ⟨by decide, rfl, by decide,
    update_tag_failure_aborts envUnregistered (ruleWith [cpuBusy]) defBadTags "bad tag"
      (by decide) rfl⟩

/-- C8: for every rule and every definition whose stamp equals the stamp the
rule's guard compares, update returns success, the rule afterwards is the
rule before the call in every field (sampler, held definition, accumulator,
parsed tags, stamps, buffer), and no collaborator is called: neither the
sampler construction nor the tag parsing nor the accumulator construction. -/
theorem update_same_stamp_is_noop {V S A : Type} (env : Env V S A) (p : collectRule V S A)
    (rule : models.CollectRule) (hstamp : p.updatedAt = rule.UpdatedAt) :
    (update env p rule).err = none ∧ (update env p rule).rule = p ∧
      (update env p rule).calls = [] := by
  simp [update, hstamp]

/-- C8 at a definition with the rule's stamp and with other tags and another
collect type than the rule holds. -/
theorem update_same_stamp_is_noop_witness :
    (ruleWith [cpuBusy]).updatedAt = ({ defNoSampler with UpdatedAt := 5 }).UpdatedAt ∧
      ((update envUnregistered (ruleWith [cpuBusy]) { defNoSampler with UpdatedAt := 5 }).err =
          none ∧
        (update envUnregistered (ruleWith [cpuBusy]) { defNoSampler with UpdatedAt := 5 }).rule =
          ruleWith [cpuBusy] ∧
        (update envUnregistered (ruleWith [cpuBusy]) { defNoSampler with UpdatedAt := 5 }).calls =
          []) :=
  ⟨rfl,
    update_same_stamp_is_noop envUnregistered (ruleWith [cpuBusy])
      { defNoSampler with UpdatedAt := 5 } rfl⟩

/-! ## Whitelist policies -/

/-- C9, counterexample: the rule holds the one raw point `cpuBusy`, the
registered policy is a whitelist declaring no metric, and prepareMetrics
returns that point instead of the empty sequence. -/
theorem prepareMetrics_empty_whitelist_publishes :
    Metrics (ruleWith [cpuBusy]) = [cpuBusy] ∧
      ((envEmptyWhitelist.GetPluginConfig (ruleWith [cpuBusy]).CollectRule.PluginName).map
        (fun c => (c.Mode, c.Metrics.length))) = some (config.PluginMode.whitelist, 0) ∧
      (prepareMetrics envEmptyWhitelist (RangeOrder.insertion _) (ruleWith [cpuBusy])).metrics =
        [cpuBusy] ∧
      [cpuBusy] ≠ ([] : List (dataobj.MetricValue Int)) := by
  refine ⟨rfl, rfl, rfl, by decide⟩

/-- C9, as the code has it: for every rule whose raw buffer is non-empty, if
the registered policy is in whitelist mode and declares zero metrics,
prepareMetrics returns the raw batch as it stands (no derived metric is
added), with no error, and leaves the rule as it was. -/
theorem prepareMetrics_empty_whitelist_returns_raw {V S A : Type} (env : Env V S A)
    (order : RangeOrder (List (dataobj.MetricValue V))) (p : collectRule V S A)
    (pluginConfig : config.PluginConfig V)
    (hne : Metrics p ≠ [])
    (hcfg : env.GetPluginConfig p.CollectRule.PluginName = some pluginConfig)
    (hmode : pluginConfig.Mode = config.PluginMode.whitelist)
    (hzero : pluginConfig.Metrics.length = 0) :
    (prepareMetrics env order p).metrics = Metrics p ∧
      (prepareMetrics env order p).err = none ∧
      (prepareMetrics env order p).rule = p := by
  unfold Metrics at hne ⊢
  cases hbuf : p.metrics.slice.toList with
  | nil => exact absurd hbuf hne
  | cons first rest =>
    simp [prepareMetrics, hbuf, hcfg, hmode, hzero]

/-- C9, the amended claim at the rule holding `cpuBusy` under a whitelist with
an expression metric and no declared metric. -/
theorem prepareMetrics_empty_whitelist_returns_raw_witness :
    Metrics (ruleWith [cpuBusy]) ≠ [] ∧
      ((prepareMetrics
          (envWith (fun _ => some ⟨config.PluginMode.whitelist, [],
            [⟨"probe.count", "GAUGE", fun _ => .ok 1⟩]⟩))
          (RangeOrder.insertion _) (ruleWith [cpuBusy])).metrics = Metrics (ruleWith [cpuBusy]) ∧
        (prepareMetrics
          (envWith (fun _ => some ⟨config.PluginMode.whitelist, [],
            [⟨"probe.count", "GAUGE", fun _ => .ok 1⟩]⟩))
          (RangeOrder.insertion _) (ruleWith [cpuBusy])).err = none ∧
        (prepareMetrics
          (envWith (fun _ => some ⟨config.PluginMode.whitelist, [],
            [⟨"probe.count", "GAUGE", fun _ => .ok 1⟩]⟩))
          (RangeOrder.insertion _) (ruleWith [cpuBusy])).rule = ruleWith [cpuBusy]) :=
  ⟨by decide,
    prepareMetrics_empty_whitelist_returns_raw
      (envWith (fun _ => some ⟨config.PluginMode.whitelist, [],
        [⟨"probe.count", "GAUGE", fun _ => .ok 1⟩]⟩))
      (RangeOrder.insertion _) (ruleWith [cpuBusy])
      ⟨config.PluginMode.whitelist, [], [⟨"probe.count", "GAUGE", fun _ => .ok 1⟩]⟩
      (by decide) rfl rfl rfl⟩

/-- C10: for every non-empty raw batch and every registered whitelist policy
that declares at least one metric, the output of prepareMetrics is the points
the expression loop appends (each one the derived point of an expression
metric whose evaluation succeeded) followed by pass-through points; every
pass-through point is built from a raw point of the batch whose name the
policy declares, with that name, the declared counter type and the point's
own tags and values; and no pass-through point has the name of a raw point
whose name is undeclared. -/
theorem prepareMetrics_whitelist_passes_declared_only {V S A : Type} (env : Env V S A)
    (order : RangeOrder (List (dataobj.MetricValue V))) (p : collectRule V S A)
    (pluginConfig : config.PluginConfig V) (first : dataobj.MetricValue V)
    (rest : List (dataobj.MetricValue V))
    (hbuf : Metrics p = first :: rest)
    (hcfg : env.GetPluginConfig p.CollectRule.PluginName = some pluginConfig)
    (hmode : pluginConfig.Mode = config.PluginMode.whitelist)
    (hdecl : pluginConfig.Metrics ≠ []) :
    ∃ derived pass,
      (prepareMetrics env order p).metrics = derived ++ pass ∧
      derived =
        (exprLoop p (toString p.CollectRule.Nid) first.Timestamp pluginConfig
          (groupByName (first :: rest)) ⟨p.metrics.slice.arr, .inShared 0⟩).out ∧
      (∀ q ∈ derived, ∃ metric ∈ pluginConfig.ExprMetrics, ∃ f,
        metric.Calc (groupByName (first :: rest)) = .ok f ∧
        q = { Nid := toString p.CollectRule.Nid, Metric := metric.Name,
              Timestamp := first.Timestamp, Step := p.CollectRule.Step,
              CounterType := metric.Type_, TagsMap := p.tags, Value := f,
              ValueUntyped := Iface.float64 f }) ∧
      (∀ q ∈ pass, ∃ metric, ∃ v ∈ Metrics p,
        mapGet pluginConfig.Metrics v.Metric = some metric ∧
        q = { Nid := toString p.CollectRule.Nid, Metric := v.Metric,
              Timestamp := first.Timestamp, Step := p.CollectRule.Step,
              CounterType := metric.Type_, TagsMap := v.TagsMap, Value := v.Value,
              ValueUntyped := v.ValueUntyped }) ∧
      (∀ v ∈ Metrics p, mapGet pluginConfig.Metrics v.Metric = none →
        ∀ q ∈ pass, q.Metric ≠ v.Metric) := by
  have hgate : ¬ (pluginConfig.Mode = config.PluginMode.whitelist ∧
      pluginConfig.Metrics.length = 0) := by
    intro h
    exact hdecl (List.length_eq_zero.mp h.2)
  have hout := prepareMetrics_metrics_eq env order p pluginConfig first rest hbuf hcfg hgate
  have hw0 : (⟨p.metrics.slice.arr, .inShared 0⟩ : Writer (dataobj.MetricValue V)).wf := by
    simp [Writer.wf]
  have hder := (exprLoop_out p (toString p.CollectRule.Nid) first.Timestamp pluginConfig
    (groupByName (first :: rest)) ⟨p.metrics.slice.arr, .inShared 0⟩ hw0).2
  have hpass : ∀ q ∈ (order.visit (groupByName (first :: rest))).flatMap
      (fun kv => kv.2.filterMap
        (passPoint p (toString p.CollectRule.Nid) first.Timestamp pluginConfig kv.1)),
      ∃ metric, ∃ v ∈ Metrics p,
        mapGet pluginConfig.Metrics v.Metric = some metric ∧
        q = { Nid := toString p.CollectRule.Nid, Metric := v.Metric,
              Timestamp := first.Timestamp, Step := p.CollectRule.Step,
              CounterType := metric.Type_, TagsMap := v.TagsMap, Value := v.Value,
              ValueUntyped := v.ValueUntyped } := by
    intro q hq
    obtain ⟨kv, hkv, hq1⟩ := List.mem_flatMap.mp hq
    obtain ⟨v, hv, hq2⟩ := List.mem_filterMap.mp hq1
    have hkv1 : kv ∈ groupByName (first :: rest) :=
      (List.Perm.mem_iff (order.perm _)).mp hkv
    obtain ⟨hraw, hname⟩ := groupByName_sound (first :: rest) kv hkv1 v hv
    rw [← hbuf] at hraw
    unfold passPoint at hq2
    rw [← hname] at hq2
    cases hget : mapGet pluginConfig.Metrics v.Metric with
    | none => simp [hget, hmode] at hq2
    | some metric =>
      simp only [hget, Option.some.injEq] at hq2
      exact ⟨metric, v, hraw, hget, hq2.symm⟩
  refine ⟨_, _, hout, rfl, ?_, hpass, ?_⟩
  · intro q hq
    rw [hder] at hq
    simp only [Writer.out, List.take_zero, List.nil_append] at hq
    obtain ⟨metric, hm, hq1⟩ := List.mem_filterMap.mp hq
    unfold exprPoint at hq1
    cases hcalc : metric.Calc (groupByName (first :: rest)) with
    | error e => simp [hcalc] at hq1
    | ok f =>
      simp only [hcalc, Option.some.injEq] at hq1
      exact ⟨metric, hm, f, hcalc, hq1.symm⟩
  · intro v _ hundecl q hq hname
    obtain ⟨metric, u, _, hget, hqeq⟩ := hpass q hq
    have hu : u.Metric = v.Metric := by
      rw [← hname, hqeq]
    rw [hu, hundecl] at hget
    cases hget

/-- C10 at the batch of `cpuBusy` and `memUsed` under the whitelist policy
`cpu.busy: GAUGE`. -/
theorem prepareMetrics_whitelist_passes_declared_only_witness :
    Metrics (ruleWith [cpuBusy, memUsed]) = cpuBusy :: [memUsed] ∧
      envCpuWhitelist.GetPluginConfig (ruleWith [cpuBusy, memUsed]).CollectRule.PluginName =
        some cfgCpuWhitelist ∧
      cfgCpuWhitelist.Mode = config.PluginMode.whitelist ∧
      cfgCpuWhitelist.Metrics ≠ [] ∧
      ∃ derived pass,
        (prepareMetrics envCpuWhitelist (RangeOrder.insertion _)
          (ruleWith [cpuBusy, memUsed])).metrics = derived ++ pass ∧
        derived =
          (exprLoop (ruleWith [cpuBusy, memUsed])
            (toString (ruleWith [cpuBusy, memUsed]).CollectRule.Nid) cpuBusy.Timestamp
            cfgCpuWhitelist (groupByName (cpuBusy :: [memUsed]))
            ⟨(ruleWith [cpuBusy, memUsed]).metrics.slice.arr, .inShared 0⟩).out ∧
        (∀ q ∈ derived, ∃ metric ∈ cfgCpuWhitelist.ExprMetrics, ∃ f,
          metric.Calc (groupByName (cpuBusy :: [memUsed])) = .ok f ∧
          q = { Nid := toString (ruleWith [cpuBusy, memUsed]).CollectRule.Nid,
                Metric := metric.Name, Timestamp := cpuBusy.Timestamp,
                Step := (ruleWith [cpuBusy, memUsed]).CollectRule.Step,
                CounterType := metric.Type_, TagsMap := (ruleWith [cpuBusy, memUsed]).tags,
                Value := f, ValueUntyped := Iface.float64 f }) ∧
        (∀ q ∈ pass, ∃ metric, ∃ v ∈ Metrics (ruleWith [cpuBusy, memUsed]),
          mapGet cfgCpuWhitelist.Metrics v.Metric = some metric ∧
          q = { Nid := toString (ruleWith [cpuBusy, memUsed]).CollectRule.Nid,
                Metric := v.Metric, Timestamp := cpuBusy.Timestamp,
                Step := (ruleWith [cpuBusy, memUsed]).CollectRule.Step,
                CounterType := metric.Type_, TagsMap := v.TagsMap, Value := v.Value,
                ValueUntyped := v.ValueUntyped }) ∧
        (∀ v ∈ Metrics (ruleWith [cpuBusy, memUsed]),
          mapGet cfgCpuWhitelist.Metrics v.Metric = none → ∀ q ∈ pass, q.Metric ≠ v.Metric) :=
  ⟨rfl, rfl, rfl, by simp [cfgCpuWhitelist],
    prepareMetrics_whitelist_passes_declared_only envCpuWhitelist (RangeOrder.insertion _)
      (ruleWith [cpuBusy, memUsed]) cfgCpuWhitelist cpuBusy [memUsed] rfl rfl rfl
      (by simp [cfgCpuWhitelist])⟩

/-! ## The groups built by the grouping loop -/

theorem groupStep_eq {V : Type} (vars : GoMap (List (dataobj.MetricValue V)))
    (v : dataobj.MetricValue V) : groupStep vars v = mapSet vars v.Metric [v] := by
  unfold groupStep
  cases hg : mapGet vars v.Metric with
  | some g => rfl
  | none => simp [mapIndex, hg]

theorem mapGet_mapSet {β : Type} (m : GoMap β) (k : String) (v : β) (n : String) :
    mapGet (mapSet m k v) n = if k = n then some v else mapGet m n := by
  induction m with
  | nil => simp [mapSet, mapGet]
  | cons kv rest ih =>
    obtain ⟨k1, v1⟩ := kv
    by_cases hk : k1 = k
    · subst hk
      by_cases hn : k1 = n <;> simp [mapSet, mapGet, hn]
    · by_cases hn : k1 = n
      · subst hn
        have hk1 : ¬ k = k1 := fun h => hk h.symm
        simp [mapSet, mapGet, hk, hk1]
      · simp [mapSet, mapGet, hk, hn, ih]

theorem mapKeys_mapSet {β : Type} (m : GoMap β) (k : String) (v : β) :
    mapKeys (mapSet m k v) = if k ∈ mapKeys m then mapKeys m else mapKeys m ++ [k] := by
  induction m with
  | nil => simp [mapSet, mapKeys]
  | cons kv rest ih =>
    obtain ⟨k1, v1⟩ := kv
    unfold mapKeys at ih ⊢
    by_cases hk : k1 = k
    · subst hk
      simp [mapSet]
    · have hk1 : ¬ k = k1 := fun h => hk h.symm
      by_cases hin : k ∈ List.map Prod.fst rest
      · simp [mapSet, hk, hk1, ih, hin]
      · simp [mapSet, hk, hk1, ih, hin]

theorem nodup_mapKeys_mapSet {β : Type} (m : GoMap β) (k : String) (v : β)
    (h : (mapKeys m).Nodup) : (mapKeys (mapSet m k v)).Nodup := by
  rw [mapKeys_mapSet]
  by_cases hin : k ∈ mapKeys m
  · simpa [hin] using h
  · simp only [hin, if_false]
    rw [List.nodup_append]
    refine ⟨h, List.nodup_singleton k, ?_⟩
    intro a ha hb
    simp only [List.mem_singleton] at hb
    subst hb
    exact hin ha

theorem mapGet_of_mem {β : Type} (m : GoMap β) (h : (mapKeys m).Nodup) (k : String) (g : β)
    (hmem : (k, g) ∈ m) : mapGet m k = some g := by
  induction m with
  | nil => simp at hmem
  | cons kv rest ih =>
    obtain ⟨k1, v1⟩ := kv
    simp only [mapKeys, List.map_cons, List.nodup_cons, List.mem_map, not_exists, not_and] at h
    simp only [List.mem_cons, Prod.mk.injEq] at hmem
    rcases hmem with ⟨h1, h2⟩ | hmem
    · subst h1
      subst h2
      simp [mapGet]
    · have hne : k1 ≠ k := by
        intro heq
        exact h.1 (k, g) hmem heq.symm
      simp only [mapGet, hne, if_false]
      exact ih h.2 hmem

theorem mem_of_mapGet {β : Type} (m : GoMap β) (k : String) (g : β)
    (h : mapGet m k = some g) : (k, g) ∈ m := by
  induction m with
  | nil => simp [mapGet] at h
  | cons kv rest ih =>
    obtain ⟨k1, v1⟩ := kv
    by_cases hk : k1 = k
    · simp only [mapGet, hk, if_true, Option.some.injEq] at h
      simp [hk, h]
    · simp only [mapGet, hk, if_false] at h
      exact List.mem_cons_of_mem _ (ih h)

theorem lastNamed_cons {V : Type} (x : dataobj.MetricValue V)
    (l : List (dataobj.MetricValue V)) (n : String) :
    lastNamed (x :: l) n =
      match lastNamed l n with
      | some v => some v
      | none => if x.Metric = n then some x else none := by
  unfold lastNamed
  by_cases hx : x.Metric = n
  · rw [List.filter_cons_of_pos (by simpa using hx), List.getLast?_cons]
    generalize List.getLast? (List.filter (fun v => decide (v.Metric = n)) l) = o
    cases o <;> simp [hx]
  · rw [List.filter_cons_of_neg (by simpa using hx)]
    generalize List.getLast? (List.filter (fun v => decide (v.Metric = n)) l) = o
    cases o <;> simp [hx]

theorem lastNamed_mem {V : Type} (raw : List (dataobj.MetricValue V)) (n : String)
    (v : dataobj.MetricValue V) (h : lastNamed raw n = some v) : v ∈ raw ∧ v.Metric = n := by
  unfold lastNamed at h
  have hm := List.mem_of_getLast?_eq_some h
  simpa using hm

theorem lastNamed_of_mem {V : Type} (raw : List (dataobj.MetricValue V))
    (v : dataobj.MetricValue V) (h : v ∈ raw) : ∃ u, lastNamed raw v.Metric = some u := by
  unfold lastNamed
  cases hl : (raw.filter (fun u => decide (u.Metric = v.Metric))).getLast? with
  | some u => exact ⟨u, rfl⟩
  | none =>
    rw [List.getLast?_eq_none_iff, List.filter_eq_nil_iff] at hl
    exact absurd (by simp) (hl v h)

theorem mapGet_foldl_groupStep {V : Type} (l : List (dataobj.MetricValue V))
    (vars : GoMap (List (dataobj.MetricValue V))) (n : String) :
    mapGet (l.foldl groupStep vars) n =
      match lastNamed l n with
      | some v => some [v]
      | none => mapGet vars n := by
  induction l generalizing vars with
  | nil => simp [lastNamed]
  | cons x l ih =>
    rw [List.foldl_cons, ih, lastNamed_cons, groupStep_eq, mapGet_mapSet]
    cases lastNamed l n with
    | some v => rfl
    | none =>
      by_cases hx : x.Metric = n <;> simp [hx]

theorem mapGet_groupByName {V : Type} (raw : List (dataobj.MetricValue V)) (n : String) :
    mapGet (groupByName raw) n = (lastNamed raw n).map (fun v => [v]) := by
  unfold groupByName
  rw [mapGet_foldl_groupStep]
  cases lastNamed raw n <;> simp [mapGet]

theorem nodup_mapKeys_foldl_groupStep {V : Type} (l : List (dataobj.MetricValue V))
    (vars : GoMap (List (dataobj.MetricValue V))) (h : (mapKeys vars).Nodup) :
    (mapKeys (l.foldl groupStep vars)).Nodup := by
  induction l generalizing vars with
  | nil => simpa using h
  | cons x l ih =>
    rw [List.foldl_cons]
    apply ih
    rw [groupStep_eq]
    exact nodup_mapKeys_mapSet vars x.Metric [x] h

theorem nodup_mapKeys_groupByName {V : Type} (raw : List (dataobj.MetricValue V)) :
    (mapKeys (groupByName raw)).Nodup := by
  unfold groupByName
  exact nodup_mapKeys_foldl_groupStep raw [] (by simp [mapKeys])

/-- Every entry of the map the grouping loop builds holds the last point of
its name alone. -/
theorem groupByName_entry {V : Type} (raw : List (dataobj.MetricValue V))
    (e : String × List (dataobj.MetricValue V)) (h : e ∈ groupByName raw) :
    ∃ v, lastNamed raw e.1 = some v ∧ e.2 = [v] := by
  obtain ⟨k, g⟩ := e
  have hget := mapGet_of_mem (groupByName raw) (nodup_mapKeys_groupByName raw) k g h
  rw [mapGet_groupByName] at hget
  cases hl : lastNamed raw k with
  | none => simp [hl] at hget
  | some v =>
    simp only [hl, Option.map_some', Option.some.injEq] at hget
    exact ⟨v, rfl, hget.symm⟩

/-- The last point of a name that occurs has its entry in the map. -/
theorem groupByName_has_entry {V : Type} (raw : List (dataobj.MetricValue V)) (n : String)
    (v : dataobj.MetricValue V) (h : lastNamed raw n = some v) :
    (n, [v]) ∈ groupByName raw := by
  apply mem_of_mapGet
  rw [mapGet_groupByName, h]
  rfl

/-! ## The pass-through loop under a blacklist policy -/

theorem passPoint_blacklist {V S A : Type} (p : collectRule V S A) (nid : String) (ts : Int)
    (pluginConfig : config.PluginConfig V) (v : dataobj.MetricValue V)
    (hmode : pluginConfig.Mode = config.PluginMode.blacklist) :
    passPoint p nid ts pluginConfig v.Metric v =
      some (passOut p nid ts (passType pluginConfig v.Metric) v) := by
  unfold passPoint passType passOut
  cases mapGet pluginConfig.Metrics v.Metric with
  | some metric => rfl
  | none => simp [hmode]

theorem entry_pass_blacklist {V S A : Type} (p : collectRule V S A) (nid : String) (ts : Int)
    (pluginConfig : config.PluginConfig V) (raw : List (dataobj.MetricValue V))
    (kv : String × List (dataobj.MetricValue V))
    (hmode : pluginConfig.Mode = config.PluginMode.blacklist)
    (hkv : kv ∈ groupByName raw) :
    ∃ v, lastNamed raw kv.1 = some v ∧ v.Metric = kv.1 ∧
      kv.2.filterMap (passPoint p nid ts pluginConfig kv.1) =
        [passOut p nid ts (passType pluginConfig v.Metric) v] := by
  obtain ⟨v, hlast, hgrp⟩ := groupByName_entry raw kv hkv
  have hname := (lastNamed_mem raw kv.1 v hlast).2
  refine ⟨v, hlast, hname, ?_⟩
  rw [hgrp, ← hname]
  simp [passPoint_blacklist p nid ts pluginConfig v hmode]

theorem map_flatMap_singletons {α β γ : Type} (f : α → List β) (g : β → γ) (h : α → γ)
    (l : List α) (hl : ∀ a ∈ l, ∃ b, f a = [b] ∧ g b = h a) :
    (l.flatMap f).map g = l.map h := by
  induction l with
  | nil => simp
  | cons a l ih =>
    obtain ⟨b, hb, hg⟩ := hl a (List.mem_cons_self _ _)
    have ih1 := ih (fun a1 ha1 => hl a1 (List.mem_cons_of_mem _ ha1))
    simp [List.flatMap_cons, hb, hg, ih1]

/-- Under a blacklist policy the pass-through loop appends, whatever the range
order, one point per entry of the map: its names are the keys of the map,
each point is built from the last raw point of its name, and the last raw
point of every name is built from. -/
theorem pass_blacklist {V S A : Type} (p : collectRule V S A) (nid : String) (ts : Int)
    (pluginConfig : config.PluginConfig V) (raw : List (dataobj.MetricValue V))
    (order : RangeOrder (List (dataobj.MetricValue V)))
    (hmode : pluginConfig.Mode = config.PluginMode.blacklist) :
    (((order.visit (groupByName raw)).flatMap
        (fun kv => kv.2.filterMap (passPoint p nid ts pluginConfig kv.1))).map
        (fun q => q.Metric) = mapKeys (order.visit (groupByName raw))) ∧
      (∀ q ∈ (order.visit (groupByName raw)).flatMap
          (fun kv => kv.2.filterMap (passPoint p nid ts pluginConfig kv.1)),
        ∃ v, lastNamed raw q.Metric = some v ∧
          q = passOut p nid ts (passType pluginConfig v.Metric) v) ∧
      (∀ n v, lastNamed raw n = some v →
        passOut p nid ts (passType pluginConfig v.Metric) v ∈
          (order.visit (groupByName raw)).flatMap
            (fun kv => kv.2.filterMap (passPoint p nid ts pluginConfig kv.1))) := by
  have hvis : ∀ kv, kv ∈ order.visit (groupByName raw) ↔ kv ∈ groupByName raw :=
    fun kv => List.Perm.mem_iff (order.perm _)
  refine ⟨?_, ?_, ?_⟩
  · unfold mapKeys
    apply map_flatMap_singletons
    intro kv hkv
    obtain ⟨v, _, hname, hpts⟩ :=
      entry_pass_blacklist p nid ts pluginConfig raw kv hmode ((hvis kv).mp hkv)
    exact ⟨_, hpts, hname⟩
  · intro q hq
    obtain ⟨kv, hkv, hq1⟩ := List.mem_flatMap.mp hq
    obtain ⟨v, hlast, hname, hpts⟩ :=
      entry_pass_blacklist p nid ts pluginConfig raw kv hmode ((hvis kv).mp hkv)
    rw [hpts, List.mem_singleton] at hq1
    refine ⟨v, ?_, hq1⟩
    rw [hq1]
    simpa [passOut, hname] using hlast
  · intro n v hlast
    have hent := groupByName_has_entry raw n v hlast
    have hname := (lastNamed_mem raw n v hlast).2
    apply List.mem_flatMap.mpr
    refine ⟨(n, [v]), (hvis _).mpr hent, ?_⟩
    simp only [List.filterMap_cons, List.filterMap_nil]
    rw [← hname, passPoint_blacklist p nid ts pluginConfig v hmode]
    simp

/-! ## Blacklist policies -/

/-- C11: for every non-empty raw batch and every registered blacklist policy,
the output of prepareMetrics is the points of the expression loop followed by
pass-through points, and for every metric name that occurs in the batch there
is a pass-through point of that name whose counter type is the one the
policy declares for the name when it declares it, and GAUGE when it does
not. -/
theorem prepareMetrics_blacklist_every_name_passes {V S A : Type} (env : Env V S A)
    (order : RangeOrder (List (dataobj.MetricValue V))) (p : collectRule V S A)
    (pluginConfig : config.PluginConfig V) (first : dataobj.MetricValue V)
    (rest : List (dataobj.MetricValue V))
    (hbuf : Metrics p = first :: rest)
    (hcfg : env.GetPluginConfig p.CollectRule.PluginName = some pluginConfig)
    (hmode : pluginConfig.Mode = config.PluginMode.blacklist) :
    ∃ pass,
      (prepareMetrics env order p).metrics =
        (exprLoop p (toString p.CollectRule.Nid) first.Timestamp pluginConfig
          (groupByName (first :: rest)) ⟨p.metrics.slice.arr, .inShared 0⟩).out ++ pass ∧
      ∀ v ∈ Metrics p, ∃ q ∈ pass, q.Metric = v.Metric ∧
        (∀ metric, mapGet pluginConfig.Metrics v.Metric = some metric →
          q.CounterType = metric.Type_) ∧
        (mapGet pluginConfig.Metrics v.Metric = none → q.CounterType = "GAUGE") := by
  have hgate : ¬ (pluginConfig.Mode = config.PluginMode.whitelist ∧
      pluginConfig.Metrics.length = 0) := by
    simp [hmode]
  have hout := prepareMetrics_metrics_eq env order p pluginConfig first rest hbuf hcfg hgate
  obtain ⟨_, _, hhas⟩ := pass_blacklist p (toString p.CollectRule.Nid) first.Timestamp
    pluginConfig (first :: rest) order hmode
  refine ⟨_, hout, ?_⟩
  intro v hv
  rw [hbuf] at hv
  obtain ⟨u, hu⟩ := lastNamed_of_mem (first :: rest) v hv
  have hname := (lastNamed_mem (first :: rest) v.Metric u hu).2
  refine ⟨_, hhas v.Metric u hu, ?_, ?_, ?_⟩
  · simpa [passOut] using hname
  · intro metric hm
    simp [passOut, passType, hname, hm]
  · intro hm
    simp [passOut, passType, hname, hm]

/-- C11 at the batch of `cpuBusy`, `diskRoot`, `memUsed` and `diskData` under
the blacklist policy that declares `cpu.busy` as COUNTER. -/
theorem prepareMetrics_blacklist_every_name_passes_witness :
    Metrics (ruleWith [cpuBusy, diskRoot, memUsed, diskData]) =
        cpuBusy :: [diskRoot, memUsed, diskData] ∧
      envCpuBlacklist.GetPluginConfig
        (ruleWith [cpuBusy, diskRoot, memUsed, diskData]).CollectRule.PluginName =
        some cfgCpuBlacklist ∧
      cfgCpuBlacklist.Mode = config.PluginMode.blacklist ∧
      ∃ pass,
        (prepareMetrics envCpuBlacklist (RangeOrder.insertion _)
          (ruleWith [cpuBusy, diskRoot, memUsed, diskData])).metrics =
          (exprLoop (ruleWith [cpuBusy, diskRoot, memUsed, diskData])
            (toString (ruleWith [cpuBusy, diskRoot, memUsed, diskData]).CollectRule.Nid)
            cpuBusy.Timestamp cfgCpuBlacklist
            (groupByName (cpuBusy :: [diskRoot, memUsed, diskData]))
            ⟨(ruleWith [cpuBusy, diskRoot, memUsed, diskData]).metrics.slice.arr,
              .inShared 0⟩).out ++ pass ∧
        ∀ v ∈ Metrics (ruleWith [cpuBusy, diskRoot, memUsed, diskData]),
          ∃ q ∈ pass, q.Metric = v.Metric ∧
            (∀ metric, mapGet cfgCpuBlacklist.Metrics v.Metric = some metric →
              q.CounterType = metric.Type_) ∧
            (mapGet cfgCpuBlacklist.Metrics v.Metric = none → q.CounterType = "GAUGE") :=
  ⟨rfl, rfl, rfl,
    prepareMetrics_blacklist_every_name_passes envCpuBlacklist (RangeOrder.insertion _)
      (ruleWith [cpuBusy, diskRoot, memUsed, diskData]) cfgCpuBlacklist cpuBusy
      [diskRoot, memUsed, diskData] rfl rfl rfl⟩

/-- C12, counterexample: the batch is the one raw point `memUsed`, with nid
empty and step 0, and the registered blacklist policy declares nothing; the
output is one point with the rule's nid 7 and step 60, and no point of the
output has the nid, name, timestamp, step, tags and values of `memUsed` with
the counter type GAUGE. -/
theorem prepareMetrics_blacklist_restamps_point :
    Metrics (ruleWith [memUsed]) = [memUsed] ∧
      ((envBlacklist.GetPluginConfig (ruleWith [memUsed]).CollectRule.PluginName).map
        (fun c => (c.Mode, mapGet c.Metrics memUsed.Metric |>.isNone))) =
        some (config.PluginMode.blacklist, true) ∧
      (prepareMetrics envBlacklist (RangeOrder.insertion _) (ruleWith [memUsed])).metrics =
        [{ Nid := "7", Metric := "mem.used", Timestamp := 1000, Step := 60,
           CounterType := "GAUGE", TagsMap := [], Value := 55,
           ValueUntyped := Iface.float64 55 }] ∧
      (prepareMetrics envBlacklist (RangeOrder.insertion _) (ruleWith [memUsed])).metrics.any
        (fun q => decide (q = { memUsed with CounterType := "GAUGE" })) = false ∧
      memUsed.Nid = "" ∧ memUsed.Step = 0 := by
  refine ⟨rfl, rfl, by decide, by decide, rfl, rfl⟩

/-- C12, as the code has it: under a registered blacklist policy, a raw point
of a non-empty batch whose name the policy does not declare, and which is the
only point of the batch with that name, is emitted with its own name, tags,
value and untyped value and the counter type GAUGE, and with the rule's nid
(as a decimal string), the timestamp of the batch's first point and the
rule's step in the place of its own nid, timestamp and step. -/
theorem prepareMetrics_blacklist_undeclared_gauge {V S A : Type} (env : Env V S A)
    (order : RangeOrder (List (dataobj.MetricValue V))) (p : collectRule V S A)
    (pluginConfig : config.PluginConfig V) (first : dataobj.MetricValue V)
    (rest : List (dataobj.MetricValue V)) (v : dataobj.MetricValue V)
    (hbuf : Metrics p = first :: rest)
    (hcfg : env.GetPluginConfig p.CollectRule.PluginName = some pluginConfig)
    (hmode : pluginConfig.Mode = config.PluginMode.blacklist)
    (hundecl : mapGet pluginConfig.Metrics v.Metric = none)
    (honce : (Metrics p).filter (fun u => decide (u.Metric = v.Metric)) = [v]) :
    { Nid := toString p.CollectRule.Nid, Metric := v.Metric, Timestamp := first.Timestamp,
      Step := p.CollectRule.Step, CounterType := "GAUGE", TagsMap := v.TagsMap,
      Value := v.Value, ValueUntyped := v.ValueUntyped } ∈
      (prepareMetrics env order p).metrics := by
  have hgate : ¬ (pluginConfig.Mode = config.PluginMode.whitelist ∧
      pluginConfig.Metrics.length = 0) := by
    simp [hmode]
  have hout := prepareMetrics_metrics_eq env order p pluginConfig first rest hbuf hcfg hgate
  obtain ⟨_, _, hhas⟩ := pass_blacklist p (toString p.CollectRule.Nid) first.Timestamp
    pluginConfig (first :: rest) order hmode
  have hlast : lastNamed (first :: rest) v.Metric = some v := by
    unfold lastNamed
    rw [← hbuf, honce]
    rfl
  have hmem := hhas v.Metric v hlast
  rw [hout]
  apply List.mem_append_right
  simpa [passOut, passType, hundecl] using hmem

/-- C12, the amended claim at the batch of `cpuBusy` and `memUsed` under the
blacklist policy that declares `cpu.busy` only, for the point `memUsed`. -/
theorem prepareMetrics_blacklist_undeclared_gauge_witness :
    Metrics (ruleWith [cpuBusy, memUsed]) = cpuBusy :: [memUsed] ∧
      envCpuBlacklist.GetPluginConfig (ruleWith [cpuBusy, memUsed]).CollectRule.PluginName =
        some cfgCpuBlacklist ∧
      cfgCpuBlacklist.Mode = config.PluginMode.blacklist ∧
      mapGet cfgCpuBlacklist.Metrics memUsed.Metric = none ∧
      (Metrics (ruleWith [cpuBusy, memUsed])).filter
        (fun u => decide (u.Metric = memUsed.Metric)) = [memUsed] ∧
      { Nid := toString (ruleWith [cpuBusy, memUsed]).CollectRule.Nid, Metric := memUsed.Metric,
        Timestamp := cpuBusy.Timestamp, Step := (ruleWith [cpuBusy, memUsed]).CollectRule.Step,
        CounterType := "GAUGE", TagsMap := memUsed.TagsMap, Value := memUsed.Value,
        ValueUntyped := memUsed.ValueUntyped } ∈
        (prepareMetrics envCpuBlacklist (RangeOrder.insertion _)
          (ruleWith [cpuBusy, memUsed])).metrics :=
  ⟨rfl, rfl, rfl, rfl, by decide,
    prepareMetrics_blacklist_undeclared_gauge envCpuBlacklist (RangeOrder.insertion _)
      (ruleWith [cpuBusy, memUsed]) cfgCpuBlacklist cpuBusy [memUsed] memUsed rfl rfl rfl
      rfl (by decide)⟩

/-! ## The end-to-end example and the derived points -/

/-- C13: for every rule whose raw batch is the single point `v` and every
registered policy, whitelist or blacklist, that declares the name of `v`
with the counter type `t` and has no expressions, prepareMetrics yields
exactly one point: name, value, untyped value, tags and timestamp are those
of `v`, the step is the rule's step and the counter type is `t` (the nid is
the rule's nid as a decimal string). -/
theorem prepareMetrics_single_declared_point {V S A : Type} (env : Env V S A)
    (order : RangeOrder (List (dataobj.MetricValue V))) (p : collectRule V S A)
    (pluginConfig : config.PluginConfig V) (v : dataobj.MetricValue V)
    (metric : config.Metric V)
    (hbuf : Metrics p = [v])
    (hcfg : env.GetPluginConfig p.CollectRule.PluginName = some pluginConfig)
    (hdecl : mapGet pluginConfig.Metrics v.Metric = some metric)
    (hexpr : pluginConfig.ExprMetrics = []) :
    (prepareMetrics env order p).metrics =
      [{ Nid := toString p.CollectRule.Nid, Metric := v.Metric, Timestamp := v.Timestamp,
         Step := p.CollectRule.Step, CounterType := metric.Type_, TagsMap := v.TagsMap,
         Value := v.Value, ValueUntyped := v.ValueUntyped }] := by
  have hgate : ¬ (pluginConfig.Mode = config.PluginMode.whitelist ∧
      pluginConfig.Metrics.length = 0) := by
    intro h
    rw [List.length_eq_zero.mp h.2] at hdecl
    simp [mapGet] at hdecl
  have hout := prepareMetrics_metrics_eq env order p pluginConfig v [] hbuf hcfg hgate
  have hgrp : groupByName [v] = [(v.Metric, [v])] := by
    simp [groupByName, groupStep, mapGet, mapSet, mapIndex]
  have hvis : order.visit [(v.Metric, [v])] = [(v.Metric, [v])] :=
    List.perm_singleton.mp (order.perm _)
  rw [hout, hgrp, hvis]
  simp [exprLoop, hexpr, Writer.out, passPoint, hdecl]

/-- C13 at the end-to-end example: step 60, the batch of `cpu.busy` with the
value 10 at the time 1000, the whitelist policy `cpu.busy: GAUGE`. -/
theorem prepareMetrics_single_declared_point_witness :
    Metrics (ruleWith [cpuBusy]) = [cpuBusy] ∧
      envCpuWhitelist.GetPluginConfig (ruleWith [cpuBusy]).CollectRule.PluginName =
        some cfgCpuWhitelist ∧
      ((mapGet cfgCpuWhitelist.Metrics cpuBusy.Metric).map (fun m => m.Type_)) = some "GAUGE" ∧
      cfgCpuWhitelist.ExprMetrics = [] ∧
      (prepareMetrics envCpuWhitelist (RangeOrder.insertion _) (ruleWith [cpuBusy])).metrics =
        [{ Nid := "7", Metric := "cpu.busy", Timestamp := 1000, Step := 60,
           CounterType := "GAUGE", TagsMap := [], Value := 10,
           ValueUntyped := Iface.float64 10 }] :=
  ⟨rfl, rfl, rfl, rfl,
    prepareMetrics_single_declared_point envCpuWhitelist (RangeOrder.insertion _)
      (ruleWith [cpuBusy]) cfgCpuWhitelist cpuBusy
      ⟨"cpu.busy", "GAUGE", fun _ => .error "no expression"⟩ rfl rfl rfl rfl⟩

theorem pass_mem_raw {V S A : Type} (p : collectRule V S A) (nid : String) (ts : Int)
    (pluginConfig : config.PluginConfig V) (raw : List (dataobj.MetricValue V))
    (order : RangeOrder (List (dataobj.MetricValue V))) (q : dataobj.MetricValue V)
    (hq : q ∈ (order.visit (groupByName raw)).flatMap
      (fun kv => kv.2.filterMap (passPoint p nid ts pluginConfig kv.1))) :
    ∃ v ∈ raw, q = passOut p nid ts q.CounterType v := by
  obtain ⟨kv, hkv, hq1⟩ := List.mem_flatMap.mp hq
  obtain ⟨v, hv, hq2⟩ := List.mem_filterMap.mp hq1
  have hkv1 : kv ∈ groupByName raw := (List.Perm.mem_iff (order.perm _)).mp hkv
  obtain ⟨hraw, hname⟩ := groupByName_sound raw kv hkv1 v hv
  refine ⟨v, hraw, ?_⟩
  unfold passPoint at hq2
  rw [← hname] at hq2
  cases hget : mapGet pluginConfig.Metrics v.Metric with
  | some metric =>
    simp only [hget, Option.some.injEq] at hq2
    rw [← hq2]
    rfl
  | none =>
    by_cases hm : pluginConfig.Mode = config.PluginMode.whitelist
    · simp [hget, hm] at hq2
    · simp only [hget, hm, if_false, Option.some.injEq] at hq2
      rw [← hq2]
      rfl

/-- C14: for every non-empty raw batch and every registered policy that is not
an empty whitelist, the output of prepareMetrics is, first, one derived point
for each expression of the policy whose evaluation over the grouped batch
succeeds, in the order of the policy, the failed ones left out: a point with
the rule's nid as a decimal string, the expression's name and counter type,
the timestamp of the batch's first point, the rule's step, the rule's tags,
and the computed value as value and as untyped value; and, after them, the
pass-through points, which are the output of the same call under the policy
without its expressions, each built from a raw point of the batch. -/
theorem prepareMetrics_derived_prefix {V S A : Type} (env : Env V S A)
    (order : RangeOrder (List (dataobj.MetricValue V))) (p : collectRule V S A)
    (pluginConfig : config.PluginConfig V) (first : dataobj.MetricValue V)
    (rest : List (dataobj.MetricValue V))
    (hbuf : Metrics p = first :: rest)
    (hcfg : env.GetPluginConfig p.CollectRule.PluginName = some pluginConfig)
    (hgate : ¬ (pluginConfig.Mode = config.PluginMode.whitelist ∧
      pluginConfig.Metrics.length = 0)) :
    ∃ pass,
      (prepareMetrics env order p).metrics =
        pluginConfig.ExprMetrics.filterMap (fun metric =>
          (metric.Calc (groupByName (first :: rest))).toOption.map (fun f =>
            ({ Nid := toString p.CollectRule.Nid, Metric := metric.Name,
               Timestamp := first.Timestamp, Step := p.CollectRule.Step,
               CounterType := metric.Type_, TagsMap := p.tags, Value := f,
               ValueUntyped := Iface.float64 f } : dataobj.MetricValue V))) ++ pass ∧
      pass =
        (prepareMetrics
          { env with GetPluginConfig := fun _ => some { pluginConfig with ExprMetrics := [] } }
          order p).metrics ∧
      ∀ q ∈ pass, ∃ v ∈ Metrics p,
        q = { Nid := toString p.CollectRule.Nid, Metric := v.Metric,
              Timestamp := first.Timestamp, Step := p.CollectRule.Step,
              CounterType := q.CounterType, TagsMap := v.TagsMap, Value := v.Value,
              ValueUntyped := v.ValueUntyped } := by
  have hout := prepareMetrics_metrics_eq env order p pluginConfig first rest hbuf hcfg hgate
  have hout0 := prepareMetrics_metrics_eq
    { env with GetPluginConfig := fun _ => some { pluginConfig with ExprMetrics := [] } }
    order p { pluginConfig with ExprMetrics := [] } first rest hbuf rfl hgate
  have hw0 : (⟨p.metrics.slice.arr, .inShared 0⟩ : Writer (dataobj.MetricValue V)).wf := by
    simp [Writer.wf]
  have hder := (exprLoop_out p (toString p.CollectRule.Nid) first.Timestamp pluginConfig
    (groupByName (first :: rest)) ⟨p.metrics.slice.arr, .inShared 0⟩ hw0).2
  have hpt : exprPoint p (toString p.CollectRule.Nid) first.Timestamp
      (groupByName (first :: rest)) =
      fun metric => (metric.Calc (groupByName (first :: rest))).toOption.map (fun f =>
        ({ Nid := toString p.CollectRule.Nid, Metric := metric.Name,
           Timestamp := first.Timestamp, Step := p.CollectRule.Step,
           CounterType := metric.Type_, TagsMap := p.tags, Value := f,
           ValueUntyped := Iface.float64 f } : dataobj.MetricValue V)) := by
    funext metric
    unfold exprPoint
    cases metric.Calc (groupByName (first :: rest)) <;> rfl
  refine ⟨(order.visit (groupByName (first :: rest))).flatMap
    (fun kv => kv.2.filterMap
      (passPoint p (toString p.CollectRule.Nid) first.Timestamp pluginConfig kv.1)), ?_, ?_, ?_⟩
  · rw [hout, hder, hpt]
    simp [Writer.out]
  · rw [hout0]
    simp only [exprLoop, List.foldl_nil, Writer.out, List.take_zero, List.nil_append]
    rfl
  · intro q hq
    obtain ⟨v, hv, hqv⟩ := pass_mem_raw p (toString p.CollectRule.Nid) first.Timestamp
      pluginConfig (first :: rest) order q hq
    rw [← hbuf] at hv
    exact ⟨v, hv, hqv⟩

/-- C14 at the batch of `cpuBusy` and `memUsed` under the blacklist policy with
the expressions `probe.bad`, which fails, and `probe.count`. -/
theorem prepareMetrics_derived_prefix_witness :
    Metrics (ruleWith [cpuBusy, memUsed]) = cpuBusy :: [memUsed] ∧
      envCpuBlacklist.GetPluginConfig (ruleWith [cpuBusy, memUsed]).CollectRule.PluginName =
        some cfgCpuBlacklist ∧
      ¬ (cfgCpuBlacklist.Mode = config.PluginMode.whitelist ∧
        cfgCpuBlacklist.Metrics.length = 0) ∧
      ∃ pass,
        (prepareMetrics envCpuBlacklist (RangeOrder.insertion _)
          (ruleWith [cpuBusy, memUsed])).metrics =
          cfgCpuBlacklist.ExprMetrics.filterMap (fun metric =>
            (metric.Calc (groupByName (cpuBusy :: [memUsed]))).toOption.map (fun f =>
              ({ Nid := toString (ruleWith [cpuBusy, memUsed]).CollectRule.Nid,
                 Metric := metric.Name, Timestamp := cpuBusy.Timestamp,
                 Step := (ruleWith [cpuBusy, memUsed]).CollectRule.Step,
                 CounterType := metric.Type_, TagsMap := (ruleWith [cpuBusy, memUsed]).tags,
                 Value := f, ValueUntyped := Iface.float64 f } : dataobj.MetricValue Int))) ++
            pass ∧
        pass =
          (prepareMetrics
            { envCpuBlacklist with
              GetPluginConfig := fun _ => some { cfgCpuBlacklist with ExprMetrics := [] } }
            (RangeOrder.insertion _) (ruleWith [cpuBusy, memUsed])).metrics ∧
        ∀ q ∈ pass, ∃ v ∈ Metrics (ruleWith [cpuBusy, memUsed]),
          q = { Nid := toString (ruleWith [cpuBusy, memUsed]).CollectRule.Nid,
                Metric := v.Metric, Timestamp := cpuBusy.Timestamp,
                Step := (ruleWith [cpuBusy, memUsed]).CollectRule.Step,
                CounterType := q.CounterType, TagsMap := v.TagsMap, Value := v.Value,
                ValueUntyped := v.ValueUntyped } :=
  ⟨rfl, rfl, by decide,
    prepareMetrics_derived_prefix envCpuBlacklist (RangeOrder.insertion _)
      (ruleWith [cpuBusy, memUsed]) cfgCpuBlacklist cpuBusy [memUsed] rfl rfl (by decide)⟩

/-! ## Frame properties -/

/-- C15: update preserves the buffer. For every rule and every definition, on
every path of update (the skipping guard, the abort on the tags, the failure
of the accumulator, the commit) the rule holds the same buffer after the
call as before, the same slice variable with the same slice, and Metrics
returns the same points. -/
theorem update_preserves_buffer {V S A : Type} (env : Env V S A) (p : collectRule V S A)
    (rule : models.CollectRule) :
    (update env p rule).rule.metrics = p.metrics ∧
      Metrics (update env p rule).rule = Metrics p := by
  have h : (update env p rule).rule.metrics = p.metrics := by
    unfold update
    split
    · rfl
    · split
      · rfl
      · split <;> rfl
  exact ⟨h, by unfold Metrics; rw [h]⟩

/-- C16: prepareMetrics never returns an error. For every rule, every result of
the policy lookup and every outcome of the evaluation of the expressions, the
error result is nil: the named result is never assigned, the error of an
evaluation lives in a variable of the loop body. -/
theorem prepareMetrics_err_nil {V S A : Type} (env : Env V S A)
    (order : RangeOrder (List (dataobj.MetricValue V))) (p : collectRule V S A) :
    (prepareMetrics env order p).err = none := by
  unfold prepareMetrics
  cases p.metrics.slice.toList with
  | nil => rfl
  | cons first rest =>
    cases env.GetPluginConfig p.CollectRule.PluginName with
    | none => rfl
    | some pluginConfig =>
      by_cases hgate : pluginConfig.Mode = config.PluginMode.whitelist ∧
          pluginConfig.Metrics.length = 0
      · simp only [if_pos hgate]
      · simp only [if_neg hgate]

/-- C17: for every rule, Metrics right after reset returns the empty sequence,
and reset leaves the sampler, the held definition, the accumulator, the
parsed tags and the two stamps as they were, and the buffer the same slice
variable on the same array. -/
theorem reset_empties_buffer {V S A : Type} (p : collectRule V S A) :
    Metrics (reset p) = [] ∧ (reset p).input = p.input ∧
      (reset p).CollectRule = p.CollectRule ∧ (reset p).acc = p.acc ∧
      (reset p).tags = p.tags ∧ (reset p).updatedAt = p.updatedAt ∧
      (reset p).lastAt = p.lastAt ∧ (reset p).metrics.addr = p.metrics.addr ∧
      (reset p).metrics.slice.arr = p.metrics.slice.arr := by
  simp [Metrics, reset, Slice.toList]

/-! ## Construction -/

/-- C18: construction is all or nothing. For every definition, newCollectRule
either returns nil with an error, which is the error of the first of the
collector lookup, the sampler construction, the parsing of the tags and the
creation of the accumulator that fails; or all four succeed and it returns no
error with a rule that holds the definition, the constructed sampler, the
accumulator, the parsed tags, an empty buffer and the definition's stamp.
A failure of any of the four excludes the second case. -/
theorem newCollectRule_all_or_nothing {V C S A : Type} (reg : Collectors C S)
    (env : Env V S A) (addr : Nat) (rule : models.CollectRule) :
    (∃ err, (newCollectRule reg env addr rule : Option (collectRule V S A) × Option Err) =
        (none, some err) ∧
      (reg.GetCollector rule.CollectType = .error err ∨
        (∃ c, reg.GetCollector rule.CollectType = .ok c ∧
          reg.TelegrafInput c rule = .error err) ∨
        (∃ c input, reg.GetCollector rule.CollectType = .ok c ∧
          reg.TelegrafInput c rule = .ok input ∧
          env.SplitTagsString rule.Tags = .error err) ∨
        (∃ c input tags, reg.GetCollector rule.CollectType = .ok c ∧
          reg.TelegrafInput c rule = .ok input ∧
          env.SplitTagsString rule.Tags = .ok tags ∧
          env.NewAccumulator { Name := accumulatorName rule, Tags := tags, Metrics := addr } =
            .error err))) ∨
    (∃ c input tags acc, reg.GetCollector rule.CollectType = .ok c ∧
      reg.TelegrafInput c rule = .ok input ∧
      env.SplitTagsString rule.Tags = .ok tags ∧
      env.NewAccumulator { Name := accumulatorName rule, Tags := tags, Metrics := addr } =
        .ok acc ∧
      ∃ r, (newCollectRule reg env addr rule : Option (collectRule V S A) × Option Err) =
          (some r, none) ∧
        r.CollectRule = rule ∧ r.input = input ∧ r.acc = some acc ∧ r.tags = tags ∧
        Metrics r = [] ∧ r.metrics.addr = addr ∧ r.updatedAt = rule.UpdatedAt) := by
  unfold newCollectRule
  cases hc : reg.GetCollector rule.CollectType with
  | error err => exact Or.inl ⟨err, rfl, Or.inl rfl⟩
  | ok c =>
    cases hi : reg.TelegrafInput c rule with
    | error err => exact Or.inl ⟨err, by simp [hi], Or.inr (Or.inl ⟨c, rfl, hi⟩)⟩
    | ok input =>
      cases ht : env.SplitTagsString rule.Tags with
      | error err =>
        exact Or.inl ⟨err, by simp [hi, ht], Or.inr (Or.inr (Or.inl ⟨c, input, rfl, hi, rfl⟩))⟩
      | ok tags =>
        cases ha : env.NewAccumulator
            { Name := accumulatorName rule, Tags := tags, Metrics := addr } with
        | error err =>
          exact Or.inl ⟨err, by simp [hi, ht, ha],
            Or.inr (Or.inr (Or.inr ⟨c, input, tags, rfl, hi, rfl, ha⟩))⟩
        | ok acc =>
          exact Or.inr ⟨c, input, tags, acc, rfl, hi, rfl, ha,
            { CollectRule := rule, input := input, acc := some acc, metrics := ⟨addr, ⟨[], 0⟩⟩,
              tags := tags, lastAt := 0, updatedAt := rule.UpdatedAt },
            by simp [hi, ht, ha], rfl, rfl, rfl, rfl, rfl, rfl, rfl⟩

/-! ## Last occurrence wins -/

/-- C20: for every non-empty raw batch and every registered blacklist policy,
the output of prepareMetrics is the points of the expression loop followed by
pass-through points of which there is exactly one for each metric name that
occurs in the batch (the names of the pass-through points are pairwise
different, and they are the names that occur); each pass-through point has
the value, the untyped value and the tags of the last point of the batch
with its name; and every group the expressions are evaluated over holds the
last point of its name alone. -/
theorem prepareMetrics_blacklist_last_wins {V S A : Type} (env : Env V S A)
    (order : RangeOrder (List (dataobj.MetricValue V))) (p : collectRule V S A)
    (pluginConfig : config.PluginConfig V) (first : dataobj.MetricValue V)
    (rest : List (dataobj.MetricValue V))
    (hbuf : Metrics p = first :: rest)
    (hcfg : env.GetPluginConfig p.CollectRule.PluginName = some pluginConfig)
    (hmode : pluginConfig.Mode = config.PluginMode.blacklist) :
    ∃ pass,
      (prepareMetrics env order p).metrics =
        (exprLoop p (toString p.CollectRule.Nid) first.Timestamp pluginConfig
          (groupByName (first :: rest)) ⟨p.metrics.slice.arr, .inShared 0⟩).out ++ pass ∧
      (pass.map (fun q => q.Metric)).Nodup ∧
      (∀ n, n ∈ pass.map (fun q => q.Metric) ↔ ∃ v ∈ Metrics p, v.Metric = n) ∧
      (∀ q ∈ pass, ∃ v, lastNamed (Metrics p) q.Metric = some v ∧ q.Value = v.Value ∧
        q.ValueUntyped = v.ValueUntyped ∧ q.TagsMap = v.TagsMap) ∧
      (∀ e ∈ groupByName (first :: rest),
        ∃ v, lastNamed (Metrics p) e.1 = some v ∧ e.2 = [v]) := by
  have hgate : ¬ (pluginConfig.Mode = config.PluginMode.whitelist ∧
      pluginConfig.Metrics.length = 0) := by
    simp [hmode]
  have hout := prepareMetrics_metrics_eq env order p pluginConfig first rest hbuf hcfg hgate
  obtain ⟨hkeys, hfrom, _⟩ := pass_blacklist p (toString p.CollectRule.Nid) first.Timestamp
    pluginConfig (first :: rest) order hmode
  have hperm : (mapKeys (order.visit (groupByName (first :: rest)))).Perm
      (mapKeys (groupByName (first :: rest))) :=
    List.Perm.map Prod.fst (order.perm _)
  rw [hbuf]
  refine ⟨_, hout, ?_, ?_, ?_, ?_⟩
  · rw [hkeys]
    exact (List.Perm.nodup_iff hperm).mpr (nodup_mapKeys_groupByName (first :: rest))
  · intro n
    rw [hkeys, List.Perm.mem_iff hperm]
    constructor
    · intro hn
      obtain ⟨e, he, hfst⟩ := List.mem_map.mp hn
      obtain ⟨v, hlast, _⟩ := groupByName_entry (first :: rest) e he
      rw [hfst] at hlast
      exact ⟨v, lastNamed_mem (first :: rest) n v hlast⟩
    · rintro ⟨v, hv, hname⟩
      obtain ⟨u, hu⟩ := lastNamed_of_mem (first :: rest) v hv
      rw [hname] at hu
      exact List.mem_map.mpr ⟨(n, [u]), groupByName_has_entry (first :: rest) n u hu, rfl⟩
  · intro q hq
    obtain ⟨v, hlast, hqv⟩ := hfrom q hq
    refine ⟨v, hlast, ?_, ?_, ?_⟩ <;> rw [hqv] <;> rfl
  · intro e he
    exact groupByName_entry (first :: rest) e he

/-- C20 at the batch of `cpuBusy`, `diskRoot`, `memUsed` and `diskData`, where
`disk.used` occurs twice, under the blacklist policy `cfgCpuBlacklist`. -/
theorem prepareMetrics_blacklist_last_wins_witness :
    Metrics (ruleWith [cpuBusy, diskRoot, memUsed, diskData]) =
        cpuBusy :: [diskRoot, memUsed, diskData] ∧
      envCpuBlacklist.GetPluginConfig
        (ruleWith [cpuBusy, diskRoot, memUsed, diskData]).CollectRule.PluginName =
        some cfgCpuBlacklist ∧
      cfgCpuBlacklist.Mode = config.PluginMode.blacklist ∧
      ∃ pass,
        (prepareMetrics envCpuBlacklist (RangeOrder.insertion _)
          (ruleWith [cpuBusy, diskRoot, memUsed, diskData])).metrics =
          (exprLoop (ruleWith [cpuBusy, diskRoot, memUsed, diskData])
            (toString (ruleWith [cpuBusy, diskRoot, memUsed, diskData]).CollectRule.Nid)
            cpuBusy.Timestamp cfgCpuBlacklist
            (groupByName (cpuBusy :: [diskRoot, memUsed, diskData]))
            ⟨(ruleWith [cpuBusy, diskRoot, memUsed, diskData]).metrics.slice.arr,
              .inShared 0⟩).out ++ pass ∧
        (pass.map (fun q => q.Metric)).Nodup ∧
        (∀ n, n ∈ pass.map (fun q => q.Metric) ↔
          ∃ v ∈ Metrics (ruleWith [cpuBusy, diskRoot, memUsed, diskData]), v.Metric = n) ∧
        (∀ q ∈ pass,
          ∃ v, lastNamed (Metrics (ruleWith [cpuBusy, diskRoot, memUsed, diskData])) q.Metric =
              some v ∧
            q.Value = v.Value ∧ q.ValueUntyped = v.ValueUntyped ∧ q.TagsMap = v.TagsMap) ∧
        (∀ e ∈ groupByName (cpuBusy :: [diskRoot, memUsed, diskData]),
          ∃ v, lastNamed (Metrics (ruleWith [cpuBusy, diskRoot, memUsed, diskData])) e.1 =
              some v ∧
            e.2 = [v]) :=
  ⟨rfl, rfl, rfl,
    prepareMetrics_blacklist_last_wins envCpuBlacklist (RangeOrder.insertion _)
      (ruleWith [cpuBusy, diskRoot, memUsed, diskData]) cfgCpuBlacklist cpuBusy
      [diskRoot, memUsed, diskData] rfl rfl rfl⟩

end Prober
